import Mathlib

/-
Verification of the maple desktop task-board core: a shallow embedding of
the MCP HTTP tool server (src-tauri/src/mcp_http.rs), the asset file-name
validation (src-tauri/src/maple_fs.rs) and the one-shot worker runner
(src-tauri/src/main.rs), together with theorems settling the specified
behavioural claims.

Modelling conventions:
- Rust String values are Lean String values; string algorithms are
  implemented over List Char so that every definition is structurally
  recursive and kernel-evaluable.
- Rust trim / to_lowercase are modelled on their ASCII behaviour
  (the relevant data is ASCII or CJK, and CJK is untouched by either).
- Byte lengths (str::len) are modelled by summing Char.utf8Size.
- serde_json::Value is the inductive Json below, with numbers restricted
  to the integers that actually occur in this protocol surface.
- External effects (file writes, tauri event emission) are returned as
  data in outcome records instead of being performed.
- External library calls (serde parsing, base64, UTF-8 lossy decoding,
  process spawning) are parameters of the functions that use them.
-/

namespace Maple

-- ── JSON values (serde_json::Value) ──

inductive Json where
  | null : Json
  | bool (b : Bool) : Json
  | num (n : Int) : Json
  | str (s : String) : Json
  | arr (elems : List Json) : Json
  | obj (fields : List (String × Json)) : Json

def Json.get? : Json → String → Option Json
  | .obj fields, key => (fields.find? (fun p => p.1 = key)).map (fun p => p.2)
  | _, _ => none

def Json.asStr? : Json → Option String
  | .str s => some s
  | _ => none

def Json.asArr? : Json → Option (List Json)
  | .arr elems => some elems
  | _ => none

/-- Value::as_u64 — succeeds on non-negative integer numbers. -/
def Json.asU64? : Json → Option Nat
  | .num n => if 0 ≤ n then some n.toNat else none
  | _ => none

def Json.isNull : Json → Bool
  | .null => true
  | _ => false

def Json.getStr (j : Json) (key : String) (dflt : String) : String :=
  ((j.get? key).bind Json.asStr?).getD dflt

-- ── List Char string primitives ──

/-- char::is_whitespace restricted to ASCII whitespace. -/
def rustIsWhitespace (c : Char) : Bool :=
  c = ' ' ∨ c = '\t' ∨ c = '\n' ∨ c = '\r'

def trimListEnd (p : Char → Bool) (l : List Char) : List Char :=
  (l.reverse.dropWhile p).reverse

/-- str::trim. -/
def rustTrim (s : String) : String :=
  ⟨trimListEnd rustIsWhitespace (s.toList.dropWhile rustIsWhitespace)⟩

/-- str::trim_start. -/
def rustTrimStart (s : String) : String :=
  ⟨s.toList.dropWhile rustIsWhitespace⟩

/-- str::to_lowercase / to_ascii_lowercase (ASCII data only). -/
def rustLower (s : String) : String :=
  ⟨s.toList.map Char.toLower⟩

/-- str::trim_end_matches with a character-set predicate. -/
def rustTrimEndMatches (p : Char → Bool) (s : String) : String :=
  ⟨trimListEnd p s.toList⟩

/-- str::trim_start_matches with a character-set predicate. -/
def rustTrimStartMatches (p : Char → Bool) (s : String) : String :=
  ⟨s.toList.dropWhile p⟩

/-- Character-for-character replacement (str::replace with 1-char pattern). -/
def rustReplaceChar (from_ : Char) (to_ : Char) (s : String) : String :=
  ⟨s.toList.map (fun c => if c = from_ then to_ else c)⟩

/-- str::strip_prefix on character lists. -/
def dropPrefixList (pre l : List Char) : Option (List Char) :=
  match pre, l with
  | [], rest => some rest
  | _ :: _, [] => none
  | p :: ps, c :: cs => if c = p then dropPrefixList ps cs else none

/-- str::strip_prefix. -/
def rustDropPre (pre s : String) : Option String :=
  (dropPrefixList pre.toList s.toList).map (fun l => ⟨l⟩)

/-- First index at which pat occurs as a contiguous run inside l (str::find). -/
def findSubIdx (l pat : List Char) : Option Nat :=
  match l with
  | [] => if pat.isEmpty then some 0 else none
  | _ :: rest =>
    if pat.isPrefixOf l then some 0
    else (findSubIdx rest pat).map (fun i => i + 1)

/-- str::contains with a string pattern. -/
def rustContainsSub (s pat : String) : Bool :=
  (findSubIdx s.toList pat.toList).isSome

/-- str::contains with a char pattern. -/
def rustContainsChar (s : String) (c : Char) : Bool :=
  s.toList.contains c

/-- str::split on a single separator character. -/
def splitOnCharList (sep : Char) : List Char → List (List Char)
  | [] => [[]]
  | c :: rest =>
    let r := splitOnCharList sep rest
    if c = sep then [] :: r
    else
      match r with
      | [] => [[c]]
      | h :: t => (c :: h) :: t

def rustSplitChar (sep : Char) (s : String) : List String :=
  (splitOnCharList sep s.toList).map (fun l => ⟨l⟩)

/-- str::splitn(2, sep): the part before the first sep, and, when sep
occurs, everything after it. -/
def splitn2 (sep : Char) (s : String) : String × Option String :=
  let l := s.toList
  let hd := l.takeWhile (fun c => ¬ c = sep)
  match l.dropWhile (fun c => ¬ c = sep) with
  | [] => (⟨hd⟩, none)
  | _ :: tl => (⟨hd⟩, some ⟨tl⟩)

/-- str::replace("\r\n", "\n") — left-to-right, non-overlapping. -/
def stripCRList : List Char → List Char
  | [] => []
  | '\r' :: '\n' :: rest => '\n' :: stripCRList rest
  | c :: rest => c :: stripCRList rest

def rustStripCRLF (s : String) : String :=
  ⟨stripCRList s.toList⟩

/-- str::char_indices().nth(max) truncation (truncate_chars helper takes
the first max characters). -/
def takeChars (s : String) (max : Nat) : String :=
  ⟨s.toList.take max⟩

def charCount (s : String) : Nat :=
  s.toList.length

/-- Byte length of a string (str::len). -/
def utf8Len (l : List Char) : Nat :=
  l.foldl (fun n c => n + c.utf8Size) 0

def joinWith (sep : String) : List String → String
  | [] => ""
  | h :: t => t.foldl (fun acc x => acc ++ sep ++ x) h

/-- Stable insertion into a list sorted by the total preorder le: the new
element goes after every existing element y with le y x. -/
def insertStable (le : α → α → Bool) (x : α) : List α → List α
  | [] => [x]
  | y :: ys => if le y x then y :: insertStable le x ys else x :: y :: ys

/-- Stable sort by a total preorder (models Rust slice::sort_by, which is a
stable sort; stable sorts by a total preorder agree on all inputs). -/
def stableSortBy (le : α → α → Bool) (l : List α) : List α :=
  l.foldl (fun acc x => insertStable le x acc) []

/-- Lexicographic order on character lists. Rust str::cmp compares UTF-8
bytes, and UTF-8 byte order coincides with code-point order. -/
def charListLt : List Char → List Char → Bool
  | [], [] => false
  | [], _ :: _ => true
  | _ :: _, [] => false
  | a :: as, b :: bs => if a < b then true else if b < a then false else charListLt as bs

def strLt (a b : String) : Bool :=
  charListLt a.toList b.toList

/-- The non-strict order of str::cmp, as used by sort_by comparators. -/
def strLe (a b : String) : Bool :=
  !(charListLt b.toList a.toList)

-- ── Data model (mcp_http.rs structs, matching frontend domain.ts) ──

structure TaskReport where
  id : String
  author : String
  content : String
  createdAt : String

structure Task where
  id : String
  title : String
  details : String
  detailsDoc : Option Json
  status : String
  tags : List String
  version : String
  createdAt : String
  updatedAt : String
  reports : List TaskReport

structure TagLabel where
  zh : Option String := none
  en : Option String := none
deriving DecidableEq

structure TagDefinition where
  color : Option String := none
  icon : Option String := none
  label : Option TagLabel := none
deriving DecidableEq

/-- BTreeMap<String, TagDefinition>, as an association list kept sorted by
key (catInsert below preserves the BTreeMap key ordering). -/
abbrev TagCatalog := List (String × TagDefinition)

structure Project where
  id : String
  name : String
  version : String
  directory : String
  workerKind : Option String
  tasks : List Task
  tagCatalog : TagCatalog

/-- BTreeMap lookup. -/
def catFind (cat : TagCatalog) (key : String) : Option TagDefinition :=
  (cat.find? (fun p => p.1 = key)).map (fun p => p.2)

/-- BTreeMap insert/overwrite, keeping keys sorted. -/
def catInsert (key : String) (v : TagDefinition) : TagCatalog → TagCatalog
  | [] => [(key, v)]
  | (k, w) :: rest =>
    if strLt key k then (key, v) :: (k, w) :: rest
    else if key = k then (key, v) :: rest
    else (k, w) :: catInsert key v rest

-- ── Events emitted to the frontend ──

inductive McpEvent where
  | taskUpdated (projectName : String) (task : Task)
  | tagCatalogUpdated (projectName : String) (tagCatalog : TagCatalog)
  | workerFinished (project : String) (summary : String)

-- ── maple_fs.rs ──

def strStarts (pre s : String) : Bool :=
  pre.toList.isPrefixOf s.toList

/-- matches!(c, char range 0-9 | char range a-f). -/
def isLowerHexChar (c : Char) : Bool :=
  ('0' ≤ c ∧ c ≤ '9') ∨ ('a' ≤ c ∧ c ≤ 'f')

/-- maple_fs::is_valid_asset_file_name. Byte lengths (str::len) are
utf8Len; the splitn(2, dot) split is at the first dot. -/
def is_valid_asset_file_name (value : String) : Bool :=
  let trimmed := rustTrim value
  let bytes := utf8Len trimmed.toList
  if bytes < 66 ∨ bytes > 73 then false
  else if rustContainsChar trimmed '/' ∨ rustContainsChar trimmed '\\' then false
  else
    match splitn2 '.' trimmed with
    | (_, none) => false
    | (hash, some ext) =>
      if ¬ utf8Len hash.toList = 64 ∨ ext = "" ∨ utf8Len ext.toList > 8 then false
      else if ¬ hash.toList.all isLowerHexChar then false
      else if ¬ ext.toList.all (fun c => c.isAlphanum) then false
      else true

-- ── mcp_http.rs: constants and asset helpers ──

def MCP_PORT : Nat := 45819

def MCP_IMAGE_MAX_BYTES : Nat := 3 * 1024 * 1024

def mime_from_extension (ext : String) : String :=
  let normalized := rustLower (rustTrim ext)
  if normalized = "png" then "image/png"
  else if normalized = "jpg" ∨ normalized = "jpeg" then "image/jpeg"
  else if normalized = "webp" then "image/webp"
  else if normalized = "gif" then "image/gif"
  else if normalized = "svg" then "image/svg+xml"
  else "application/octet-stream"

def parse_maple_asset_file_name (url : String) : Option String :=
  let trimmed := rustTrimEndMatches (fun c => c = '/') (rustTrim url)
  match rustDropPre "maple://asset/" trimmed with
  | some rest => some rest
  | none =>
    match rustDropPre "maple://localhost/asset/" trimmed with
    | some rest => some rest
    | none => rustDropPre "maple:///asset/" trimmed

/-- Index of the first URL-terminating character in the source scan
(whitespace or one of the closing delimiters), else the whole length. -/
def urlEndRel (rest : List Char) : Nat :=
  match rest.findIdx? (fun ch =>
      rustIsWhitespace ch ∨ ch = ')' ∨ ch = ']' ∨ ch = '"' ∨
      ch = Char.ofNat 39 ∨ ch = '<' ∨ ch = '>') with
  | some i => i
  | none => rest.length

/-- One pass of the rewrite_maple_asset_urls cursor loop, fuelled; each
iteration consumes at least one character, so fuel = length + 1 reaches the
fixpoint. The seen-set/assets pair of the source is collapsed into the
duplicate-free assets list. -/
def rewriteAux : Nat → List Char → List String → List Char × List String
  | 0, text, assets => (text, assets)
  | fuel + 1, text, assets =>
    match findSubIdx text "maple://".toList with
    | none => (text, assets)
    | some pos =>
      let before := text.take pos
      let rest := text.drop pos
      let endRel := urlEndRel rest
      let url : String := ⟨rest.take endRel⟩
      let remaining := rest.drop endRel
      let step :=
        match (parse_maple_asset_file_name url).map rustTrim with
        | some fileName =>
          if is_valid_asset_file_name fileName then
            let assets2 := if assets.contains fileName then assets else assets ++ [fileName]
            ("asset://" ++ fileName, assets2)
          else (url, assets)
        | none => (url, assets)
      let next := rewriteAux fuel remaining step.2
      (before ++ step.1.toList ++ next.1, next.2)

def rewrite_maple_asset_urls (text : String) : String × List String :=
  let r := rewriteAux (text.toList.length + 1) text.toList []
  (⟨r.1⟩, r.2)

/-- Environment abstracting maple_fs::asset_dir, the filesystem and the
base64 engine used by read_asset_base64_image. -/
structure AssetEnv where
  assetDir : Except String String
  fileExists : String → Bool
  readFile : String → Except String (List Nat)
  b64encode : List Nat → String

/-- PathBuf::join of the assets directory and a separator-free file name. -/
def joinPath (dir fileName : String) : String :=
  dir ++ "/" ++ fileName

def read_asset_base64_image (env : AssetEnv) (fileName : String) :
    Except String (String × String) :=
  let trimmed := rustTrim fileName
  if ¬ is_valid_asset_file_name trimmed then
    .error "无效的 asset 文件名（必须为 64 位小写 hex + 扩展名）。"
  else
    match env.assetDir with
    | .error e => .error e
    | .ok dir =>
      let path := joinPath dir trimmed
      if ¬ env.fileExists path then .error "asset 文件不存在。"
      else
        match env.readFile path with
        | .error e => .error ("读取 asset 文件失败: " ++ e)
        | .ok bytes =>
          if bytes.length > MCP_IMAGE_MAX_BYTES then
            .error ("图片过大（" ++ toString bytes.length ++ " bytes），已跳过内联。")
          else
            let ext := ((rustSplitChar '.' trimmed).get? 1).getD ""
            let mime := mime_from_extension ext
            if mime = "application/octet-stream" then .error "不支持的图片类型。"
            else .ok (env.b64encode bytes, mime)

-- ── mcp_http.rs: state file ──

/-- The on-disk state.json as seen by read_state: absent, unreadable
(fs::read_to_string errs), or readable raw text. -/
inductive StateFile where
  | missing : StateFile
  | unreadable : StateFile
  | raw (content : String) : StateFile

/-- read_state, with serde_json::from_str abstracted as the parse
parameter; every failure path collapses to the empty list. -/
def read_state (parse : String → Option (List Project)) : StateFile → List Project
  | .missing => []
  | .unreadable => []
  | .raw content => (parse content).getD []

-- ── mcp_http.rs: path normalization and project lookup ──

def strip_trailing_separators (value : String) : String :=
  rustTrimEndMatches (fun ch => ch = '/' ∨ ch = '\\') value

def is_path_like (value : String) : Bool :=
  let trimmed := rustTrim value
  if trimmed = "" then false
  else if trimmed.toList.head? = some '/' then true
  else if rustContainsChar trimmed '\\' ∨ rustContainsChar trimmed '/' then true
  else
    match trimmed.toList with
    | c0 :: c1 :: _ => c0.isAlpha ∧ c1 = ':'
    | _ => false

/-- Fixpoint of the source loop (while the string contains a double
backslash, replace it by a single one): every maximal run of backslashes
collapses to one. The Bool argument records whether the previous kept
character was a backslash. -/
def collapseBackslashList : Bool → List Char → List Char
  | _, [] => []
  | prev, c :: rest =>
    if c = '\\' then
      if prev then collapseBackslashList true rest
      else '\\' :: collapseBackslashList true rest
    else c :: collapseBackslashList false rest

def collapseDoubleBackslashes (s : String) : String :=
  ⟨collapseBackslashList false s.toList⟩

def normalize_windows_drive_path_for_compare (value : String) : Option String :=
  let trimmed := strip_trailing_separators (rustTrim value)
  match trimmed.toList with
  | [] => none
  | [_] => none
  | drive :: colon :: restChars =>
    if ¬ drive.isAlpha then none
    else if ¬ colon = ':' then none
    else
      let rest0 : String := rustReplaceChar '/' '\\' ⟨restChars⟩
      let rest1 := rustTrimEndMatches (fun c => c = '\\') (collapseDoubleBackslashes rest0)
      if rest1 = "" then some (rustLower (⟨[drive.toLower]⟩ ++ ":"))
      else
        let rest2 := if rest1.toList.head? = some '\\' then rest1 else "\\" ++ rest1
        some (rustLower (⟨[drive.toLower]⟩ ++ ":" ++ rest2))

def normalize_wsl_mnt_path_for_compare (value : String) : Option String :=
  let trimmed := strip_trailing_separators (rustTrim value)
  let normalized := rustReplaceChar '\\' '/' trimmed
  match (rustDropPre "/mnt/" normalized).orElse (fun _ => rustDropPre "mnt/" normalized) with
  | none => none
  | some rest =>
    let p := splitn2 '/' rest
    let drive := rustTrim p.1
    if ¬ utf8Len drive.toList = 1 then none
    else
      match drive.toList.head? with
      | none => none
      | some c =>
        let driveChar := c.toLower
        if ¬ driveChar.isAlpha then none
        else
          let tail0 := rustTrim (rustTrimStartMatches (fun ch => ch = '/') (rustTrim (p.2.getD "")))
          if tail0 = "" then some (rustLower (⟨[driveChar]⟩ ++ ":"))
          else
            let wtail := rustTrimEndMatches (fun ch => ch = '\\')
              (collapseDoubleBackslashes (rustReplaceChar '/' '\\' tail0))
            some (rustLower (⟨[driveChar]⟩ ++ ":\\" ++ wtail))

def normalize_directory_key (value : String) : Option String :=
  let trimmed := rustTrim value
  if trimmed = "" then none
  else
    match normalize_wsl_mnt_path_for_compare trimmed with
    | some normalized => some normalized
    | none =>
      match normalize_windows_drive_path_for_compare trimmed with
      | some normalized => some normalized
      | none =>
        let normalized := rustReplaceChar '\\' '/' (strip_trailing_separators trimmed)
        if normalized = "" then none else some (rustLower normalized)

def find_project_index (projects : List Project) (name : String) : Option Nat :=
  let rawKw := rustTrim name
  let kw := rustLower rawKw
  if rawKw = "" then none
  else
    (projects.findIdx? (fun p => rustLower (rustTrim p.name) = kw)).orElse (fun _ =>
      (if ¬ is_path_like rawKw then none
       else
         (normalize_directory_key rawKw).bind (fun queryKey =>
           projects.findIdx? (fun p =>
             normalize_directory_key p.directory = some queryKey))).orElse (fun _ =>
        projects.findIdx? (fun p => rustContainsSub (rustLower p.name) kw)))

-- ── mcp_http.rs: report formatting ──

def truncate_chars (s : String) (max : Nat) : String :=
  takeChars s max

/-- summarize_report_content. Rust str::lines plus per-line trim and
non-empty filter coincides with splitting on the newline character after
the CRLF replacement, because the filter drops the one trailing empty
segment lines() would omit and trim eats any stray carriage return. -/
def summarize_report_content (content : String) (maxChars : Nat) : String :=
  let content := (rewrite_maple_asset_urls content).1
  let collapsed := joinWith " / "
    (((rustSplitChar '\n' (rustStripCRLF content)).map rustTrim).filter (fun line => ¬ line = ""))
  if collapsed = "" then "（空）"
  else
    let preview := truncate_chars collapsed maxChars
    if charCount collapsed > maxChars then preview ++ "..." else preview

def build_report_history_lines (reports : List TaskReport) : List String :=
  let kept := reports.filter (fun r => ¬ rustTrim r.content = "")
  if kept.isEmpty then ["历史报告：", "（无）"]
  else
    let sorted := stableSortBy (fun a b => strLe b.createdAt a.createdAt) kept
    let total := sorted.length
    let maxItems := 5
    let displayed := sorted.take maxItems
    let header := "历史报告（最近 " ++ toString displayed.length ++ " / 共 " ++ toString total ++ " 条）："
    let body := displayed.map (fun report =>
      let author := if rustTrim report.author = "" then "unknown" else rustTrim report.author
      let timestamp := if rustTrim report.createdAt = "" then "未知时间" else rustTrim report.createdAt
      let preview := summarize_report_content report.content 220
      "- " ++ author ++ " @ " ++ timestamp ++ ": " ++ preview)
    let tailLines :=
      if total > maxItems then ["... 其余 " ++ toString (total - maxItems) ++ " 条已省略。"] else []
    header :: body ++ tailLines

-- ── mcp_http.rs: task status and tag catalog logic ──

def is_terminal_task_status (status : String) : Bool :=
  status = "草稿" ∨ status = "已完成" ∨ status = "已阻塞" ∨ status = "需要更多信息"

def normalize_tag_id (raw : String) : String :=
  rustLower (rustTrim raw)

def has_cjk (value : String) : Bool :=
  value.toList.any (fun ch => 0x3400 ≤ ch.toNat ∧ ch.toNat ≤ 0x9FFF)

def has_latin (value : String) : Bool :=
  value.toList.any (fun ch => ch.isAlpha)

def resolve_tag_preset (tagId : String) : Option (String × String × String) :=
  match tagId with
  | "mcp" => some ("MCP", "MCP", "mingcute:server-line")
  | "verify" => some ("验证", "Verify", "mingcute:check-line")
  | "verified" => some ("已验证", "Verified", "mingcute:check-line")
  | "ui" => some ("UI", "UI", "mingcute:palette-line")
  | "fix" => some ("修复", "Fix", "mingcute:shield-line")
  | "i18n" => some ("多语言", "i18n", "mingcute:translate-line")
  | "tag" => some ("标签", "Tag", "mingcute:tag-line")
  | "icon" => some ("图标", "Icon", "mingcute:tag-line")
  | "image" => some ("图片", "Image", "mingcute:layers-line")
  | "editor" => some ("编辑器", "Editor", "mingcute:code-line")
  | "desktop" => some ("桌面端", "Desktop", "mingcute:computer-line")
  | "ci" => some ("CI", "CI", "mingcute:settings-3-line")
  | "release" => some ("发布", "Release", "mingcute:settings-3-line")
  | "research" => some ("调研", "Research", "mingcute:search-line")
  | "blocknote" => some ("BlockNote", "BlockNote", "mingcute:layers-line")
  | "hapi" => some ("Hapi", "Hapi", "mingcute:server-line")
  | "interactive" => some ("交互", "Interactive", "mingcute:palette-line")
  | "area:build" => some ("构建", "Build", "mingcute:settings-3-line")
  | "area:tags" => some ("标签", "Tags", "mingcute:tag-line")
  | "area:research" => some ("调研", "Research", "mingcute:search-line")
  | _ =>
    match rustDropPre "area:" tagId with
    | some area =>
      match area with
      | "core" => some ("核心", "Core", "mingcute:layout-grid-line")
      | "ui" => some ("UI", "UI", "mingcute:palette-line")
      | "task-detail" => some ("详情", "Detail", "mingcute:layout-right-line")
      | "markdown" => some ("Markdown", "Markdown", "mingcute:layers-line")
      | "worker" => some ("执行器", "Worker", "mingcute:ai-line")
      | "mcp" => some ("MCP", "MCP", "mingcute:server-line")
      | "xterm" => some ("终端", "Terminal", "mingcute:terminal-box-line")
      | "i18n" => some ("多语言", "i18n", "mingcute:translate-line")
      | "build" => some ("构建", "Build", "mingcute:settings-3-line")
      | "tags" => some ("标签", "Tags", "mingcute:tag-line")
      | "research" => some ("调研", "Research", "mingcute:search-line")
      | _ => none
    | none => none

def build_auto_tag_definition (rawTag : String) : TagDefinition :=
  let raw := rustTrim rawTag
  let tagId := normalize_tag_id raw
  let preset := resolve_tag_preset tagId
  let label0 : TagLabel :=
    match preset with
    | some (zh, en, _) => { zh := some zh, en := some en }
    | none => {}
  let label1 :=
    if label0.zh = none ∧ ¬ raw = "" ∧ has_cjk raw then { label0 with zh := some raw } else label0
  let label2 :=
    if label1.en = none ∧ ¬ raw = "" ∧ has_latin raw then { label1 with en := some raw } else label1
  let label3 :=
    if label2.zh = none ∧ ¬ raw = "" then { label2 with zh := some raw } else label2
  let label4 :=
    if label3.en = none ∧ (label3.zh.map has_latin).getD false then { label3 with en := label3.zh }
    else label3
  { color := none
    icon := some ((preset.map (fun t => t.2.2)).getD "mingcute:tag-line")
    label := if label4.zh.isSome ∨ label4.en.isSome then some label4 else none }

/-- The entry-mutation section of the ensure_tag_catalog_for_tags loop
body: fill the icon and the two label fields only where they are missing,
reporting whether anything changed. -/
def ensureMergeEntry (entry0 inferred : TagDefinition) : TagDefinition × Bool :=
  let iconChanged := entry0.icon = none ∧ ¬ inferred.icon = none
  let entry1 := if iconChanged then { entry0 with icon := inferred.icon } else entry0
  let label0 := entry1.label.getD {}
  let zhNew := if label0.zh = none then inferred.label.bind (fun item => item.zh) else none
  let label1 := match zhNew with | some v => { label0 with zh := some v } | none => label0
  let enNew := if label1.en = none then inferred.label.bind (fun item => item.en) else none
  let label2 := match enNew with | some v => { label1 with en := some v } | none => label1
  let labelChanged := zhNew.isSome ∨ enNew.isSome
  let entry2 := if labelChanged then { entry1 with label := some label2 } else entry1
  (entry2, iconChanged ∨ labelChanged)

/-- Body of the ensure_tag_catalog_for_tags loop for one raw tag; returns
the updated catalog and whether this tag changed it. The BTreeMap
entry().or_default() insertion is catInsert of the finished entry. -/
def ensureTagStep (catalog : TagCatalog) (rawTag : String) : TagCatalog × Bool :=
  let tagId := normalize_tag_id rawTag
  if tagId = "" then (catalog, false)
  else
    let inferred := build_auto_tag_definition rawTag
    let entry0 := (catFind catalog tagId).getD {}
    let merged := ensureMergeEntry entry0 inferred
    (catInsert tagId merged.1 catalog, merged.2)

def ensure_tag_catalog_for_tags (catalog : TagCatalog) (tags : List String) :
    TagCatalog × Bool :=
  tags.foldl (fun acc rawTag =>
    let r := ensureTagStep acc.1 rawTag
    (r.1, acc.2 || r.2)) (catalog, false)

def is_valid_mingcute_icon (icon : String) : Bool :=
  strStarts "mingcute:" (rustLower (rustTrim icon))

-- ── mcp_http.rs: MCP tool handlers ──

def textContent (text : String) : Json :=
  Json.obj [("type", Json.str "text"), ("text", Json.str text)]

def imageContent (mime data : String) : Json :=
  Json.obj [("type", Json.str "image"), ("mimeType", Json.str mime), ("data", Json.str data)]

def contentResponse (text : String) : Json :=
  Json.obj [("content", Json.arr [textContent text])]

def errorResponse (text : String) : Json :=
  Json.obj [("content", Json.arr [textContent text]), ("isError", Json.bool true)]

/-- Junk value standing behind projects[idx] at indices that
find_project_index guarantees to be in range. -/
def defaultProject : Project :=
  { id := "", name := "", version := "", directory := "", workerKind := none,
    tasks := [], tagCatalog := [] }

def defaultTask : Task :=
  { id := "", title := "", details := "", detailsDoc := none, status := "",
    tags := [], version := "", createdAt := "", updatedAt := "", reports := [] }

def tool_query_project_todos (projects : List Project) (args : Json) : Json :=
  let name := args.getStr "project" ""
  match find_project_index projects name with
  | none =>
    let names := projects.map (fun p => p.name)
    contentResponse ("未找到匹配项目「" ++ name ++ "」。可用项目：" ++
      (if names.isEmpty then "（无）" else joinWith "、" names))
  | some idx =>
    let target := projects.getD idx defaultProject
    let todos0 := target.tasks.filter (fun t => ¬ t.status = "已完成" ∧ ¬ t.status = "草稿")
    let todos := stableSortBy (fun a b => strLe b.updatedAt a.updatedAt) todos0
    if todos.isEmpty then
      contentResponse ("项目「" ++ target.name ++ "」暂无待处理任务。")
    else
      let lines := todos.enum.map (fun pair =>
        let t := pair.2
        let tags := if t.tags.isEmpty then "" else " [" ++ joinWith ", " t.tags ++ "]"
        let title := if rustTrim t.title = "" then "（无标题）" else t.title
        let details := rustTrim t.details
        let detailsText := if details = "" then "（空）" else (rewrite_maple_asset_urls details).1
        let block :=
          [toString (pair.1 + 1) ++ ". [" ++ t.status ++ "] " ++ title ++ tags ++
             "  (id: " ++ t.id ++ ")",
           "详情：", detailsText, ""] ++ build_report_history_lines t.reports
        joinWith "\n" block)
      contentResponse ("项目「" ++ target.name ++ "」— " ++ toString todos.length ++
        " 个待处理任务（不含草稿）：\n\n" ++ joinWith "\n\n---\n\n" lines)

/-- One (project name, task title, created_at, content) row collected by
tool_query_recent_context. -/
structure ContextItem where
  proj : String
  taskTitle : String
  createdAt : String
  content : String

def tool_query_recent_context (projects : List Project) (args : Json) : Json :=
  let projectName := (args.get? "project").bind Json.asStr?
  let keyword := (args.get? "keyword").bind Json.asStr?
  let limit := max (((args.get? "limit").bind Json.asU64?).getD 10) 1
  let indices : List Nat :=
    match projectName with
    | some name => (find_project_index projects name).toList
    | none => List.range projects.length
  let items : List ContextItem := (indices.map (fun idx =>
    let p := projects.getD idx defaultProject
    (p.tasks.map (fun task =>
      task.reports.filterMap (fun report =>
        let content := rustTrim report.content
        if content = "" then none
        else
          match keyword with
          | some kw =>
            if ¬ rustContainsSub (rustLower content) (rustLower kw) then none
            else some { proj := p.name, taskTitle := task.title,
                        createdAt := report.createdAt, content := content }
          | none => some { proj := p.name, taskTitle := task.title,
                           createdAt := report.createdAt, content := content }))).flatten)).flatten
  let sorted := stableSortBy (fun a b => strLe b.createdAt a.createdAt) items
  let result := sorted.take limit
  if result.isEmpty then contentResponse "未找到匹配的任务报告。"
  else
    let lines := result.map (fun it =>
      let rewritten := (rewrite_maple_asset_urls it.content).1
      let preview := truncate_chars rewritten 200
      "[" ++ it.proj ++ "] " ++ it.taskTitle ++ "\n  时间：" ++ it.createdAt ++
        "\n  内容：" ++ preview)
    contentResponse (joinWith "\n\n" lines)

def tool_query_task_details (env : AssetEnv) (projects : List Project) (args : Json) : Json :=
  let projectName := args.getStr "project" ""
  let taskId := args.getStr "task_id" ""
  match find_project_index projects projectName with
  | none => errorResponse ("未找到匹配项目「" ++ projectName ++ "」。")
  | some idx =>
    let target := projects.getD idx defaultProject
    match target.tasks.find? (fun t => t.id = taskId) with
    | none => errorResponse ("项目「" ++ target.name ++ "」中未找到任务 ID「" ++ taskId ++ "」。")
    | some task =>
      let tags := if task.tags.isEmpty then "（无）" else joinWith "、" task.tags
      let details := rustTrim task.details
      let p := if details = "" then ("（空）", ([] : List String))
               else rewrite_maple_asset_urls details
      let lines :=
        ["任务：" ++ task.title ++ "  (id: " ++ task.id ++ ")",
         "状态：" ++ task.status,
         "标签：" ++ tags,
         "版本：" ++ task.version,
         "更新时间：" ++ task.updatedAt,
         "",
         "详情：",
         p.1]
      let base := [textContent (joinWith "\n" lines)]
      let imgs := (p.2.map (fun fileName =>
        match read_asset_base64_image env fileName with
        | .ok pair => [textContent ("图片：" ++ fileName), imageContent pair.2 pair.1]
        | .error err =>
          [textContent ("图片读取失败：" ++ fileName ++ "（" ++ err ++ "）")])).flatten
      Json.obj [("content", Json.arr (base ++ imgs))]

def normalize_asset_file_name_arg (raw : String) : Option String :=
  let trimmed := rustTrim raw
  if trimmed = "" then none
  else
    match rustDropPre "asset://" trimmed with
    | some rest => some (rustTrim rest)
    | none =>
      match parse_maple_asset_file_name trimmed with
      | some rest => some (rustTrim rest)
      | none => some trimmed

def tool_read_asset_image (env : AssetEnv) (args : Json) : Json :=
  let raw :=
    match (args.get? "file_name").bind Json.asStr? with
    | some s => s
    | none => ((args.get? "url").bind Json.asStr?).getD ""
  match normalize_asset_file_name_arg raw with
  | none => errorResponse "缺少参数：file_name / url。"
  | some fileName =>
    match read_asset_base64_image env fileName with
    | .ok pair =>
      Json.obj [("content", Json.arr [textContent ("图片：" ++ fileName),
                                      imageContent pair.2 pair.1])]
    | .error err => errorResponse ("图片读取失败：" ++ fileName ++ "（" ++ err ++ "）")

/-- Result of a state-mutating tool handler: the JSON response, the
projects list passed to write_state (when called), the worker-signal.json
payload (when written), and the tauri events emitted, in order. -/
structure ToolOutcome where
  response : Json
  written : Option (List Project) := none
  signal : Option Json := none
  events : List McpEvent := []

def tool_submit_task_report (projects : List Project) (args : Json)
    (now : String) (ts : Nat) : ToolOutcome :=
  let projectName := args.getStr "project" ""
  let taskId := args.getStr "task_id" ""
  let status := (args.get? "status").bind Json.asStr?
  let reportContent := args.getStr "report" ""
  let tags : List String :=
    match (args.get? "tags").bind Json.asArr? with
    | some a => (a.filterMap Json.asStr?).take 5
    | none => []
  match find_project_index projects projectName with
  | none => { response := errorResponse ("未找到匹配项目「" ++ projectName ++ "」。") }
  | some idx =>
    let target := projects.getD idx defaultProject
    let targetName := target.name
    match target.tasks.findIdx? (fun t => t.id = taskId) with
    | none =>
      { response := errorResponse ("项目「" ++ targetName ++ "」中未找到任务 ID「" ++
          taskId ++ "」。") }
    | some taskIndex =>
      let oldTask := target.tasks.getD taskIndex defaultTask
      let taskTitle := oldTask.title
      let newTask :=
        { oldTask with
            reports := oldTask.reports ++
              [{ id := "report-" ++ toString ts, author := "mcp",
                 content := reportContent, createdAt := now }]
            updatedAt := now
            status := status.getD oldTask.status
            tags := if tags.isEmpty then oldTask.tags else tags }
      let ensured := ensure_tag_catalog_for_tags target.tagCatalog newTask.tags
      let target2 := { target with tasks := target.tasks.set taskIndex newTask,
                                   tagCatalog := ensured.1 }
      let projects2 := projects.set idx target2
      let statusText :=
        match status with
        | some s => "状态已更新为「" ++ s ++ "」"
        | none => "状态未变更"
      { response := contentResponse ("已提交报告至「" ++ targetName ++ "」任务「" ++
          taskTitle ++ "」。" ++ statusText ++ "。"),
        written := some projects2,
        events := [McpEvent.taskUpdated targetName newTask] ++
          (if ensured.2 then [McpEvent.tagCatalogUpdated targetName ensured.1] else []) }

def tool_query_tag_catalog (projects : List Project) (args : Json) : Json :=
  let name := args.getStr "project" ""
  match find_project_index projects name with
  | none => errorResponse ("未找到匹配项目「" ++ name ++ "」。")
  | some idx =>
    let target := projects.getD idx defaultProject
    if target.tagCatalog.isEmpty then
      contentResponse ("项目「" ++ target.name ++ "」暂无 Tag Catalog。")
    else
      let lines := target.tagCatalog.map (fun entry =>
        let d := entry.2
        "- " ++ entry.1 ++ "  color: " ++ d.color.getD "（未设置）" ++
          "  icon: " ++ d.icon.getD "（未设置）" ++
          "  label.zh: " ++ ((d.label.bind (fun l => l.zh)).getD "（未设置）") ++
          "  label.en: " ++ ((d.label.bind (fun l => l.en)).getD "（未设置）"))
      contentResponse ("项目「" ++ target.name ++ "」Tag Catalog：\n" ++ joinWith "\n" lines)

/-- Argument preprocessing shared by the optional color/icon/label fields:
as_str, trim, and drop empty results. -/
def nonEmptyTrim (s : Option String) : Option String :=
  (s.map rustTrim).filter (fun v => ¬ v = "")

/-- The entry-mutation section of tool_upsert_tag_definition: supplied
values overwrite the corresponding fields, absent values leave them
untouched. -/
def upsertMergeEntry (entry0 : TagDefinition)
    (color icon labelZh labelEn : Option String) : TagDefinition :=
  let entry1 : TagDefinition := match color with
    | some c => { entry0 with color := some c }
    | none => entry0
  let entry2 : TagDefinition := match icon with
    | some i => { entry1 with icon := some (rustLower i) }
    | none => entry1
  if labelZh.isSome ∨ labelEn.isSome then
    let label0 : TagLabel := entry2.label.getD {}
    let label1 : TagLabel := match labelZh with
      | some zh => { label0 with zh := some zh }
      | none => label0
    let label2 : TagLabel := match labelEn with
      | some en => { label1 with en := some en }
      | none => label1
    if label2.zh = none ∧ label2.en = none then { entry2 with label := none }
    else { entry2 with label := some label2 }
  else entry2

def tool_upsert_tag_definition (projects : List Project) (args : Json) : ToolOutcome :=
  let projectName := args.getStr "project" ""
  let tagRaw := args.getStr "tag" ""
  let tagId := normalize_tag_id tagRaw
  if tagId = "" then { response := errorResponse "tag 不能为空。" }
  else
    let color := nonEmptyTrim ((args.get? "color").bind Json.asStr?)
    let icon := nonEmptyTrim ((args.get? "icon").bind Json.asStr?)
    let iconInvalid := (icon.map (fun i => !(is_valid_mingcute_icon i))).getD false
    if iconInvalid then
      { response := errorResponse "icon 必须是 Iconify 的 mingcute 图标（例如 mingcute:tag-line）。" }
    else
      let labelZh := nonEmptyTrim ((args.get? "label_zh").bind Json.asStr?)
      let labelEn := nonEmptyTrim ((args.get? "label_en").bind Json.asStr?)
      match find_project_index projects projectName with
      | none => { response := errorResponse ("未找到匹配项目「" ++ projectName ++ "」。") }
      | some idx =>
        let target := projects.getD idx defaultProject
        let targetName := target.name
        let entry0 := (catFind target.tagCatalog tagId).getD {}
        let entry3 := upsertMergeEntry entry0 color icon labelZh labelEn
        let catalog2 := catInsert tagId entry3 target.tagCatalog
        let projects2 := projects.set idx { target with tagCatalog := catalog2 }
        { response := contentResponse ("已更新「" ++ targetName ++ "」Tag「" ++ tagId ++ "」定义。"),
          written := some projects2,
          events := [McpEvent.tagCatalogUpdated targetName catalog2] }

def tool_finish_worker (projects : List Project) (args : Json) (now : String) : ToolOutcome :=
  let projectName := args.getStr "project" ""
  let summary := args.getStr "summary" ""
  match find_project_index projects projectName with
  | none => { response := errorResponse ("未找到匹配项目「" ++ projectName ++ "」。") }
  | some idx =>
    let target := projects.getD idx defaultProject
    let unresolvedTasks := target.tasks.filter (fun task => !(is_terminal_task_status task.status))
    if ¬ unresolvedTasks.isEmpty then
      let lines :=
        ["项目「" ++ target.name ++ "」仍有 " ++ toString unresolvedTasks.length ++
           " 个任务未收敛，禁止 finish_worker。",
         "请先对每条任务调用 submit_task_report，将状态更新为：草稿 / 已完成 / 已阻塞 / 需要更多信息。",
         ""] ++
        unresolvedTasks.enum.map (fun pair =>
          toString (pair.1 + 1) ++ ". [" ++ pair.2.status ++ "] " ++ pair.2.title ++
            "  (id: " ++ pair.2.id ++ ")")
      { response := errorResponse (joinWith "\n" lines) }
    else
      let signal := Json.obj
        [("project", Json.str target.name), ("summary", Json.str summary),
         ("timestamp", Json.str now), ("action", Json.str "finish")]
      { response := contentResponse ("已通知 Maple 项目「" ++ target.name ++ "」的 Worker 执行完毕。"),
        signal := some signal,
        events := [McpEvent.workerFinished target.name summary] }

-- ── mcp_http.rs: static tool catalog ──

def strProp (description : String) : Json :=
  Json.obj [("type", Json.str "string"), ("description", Json.str description)]

def tool_definitions : List Json :=
  [Json.obj
    [("name", Json.str "query_project_todos"),
     ("description", Json.str "按项目名查询待处理任务（不含草稿/已完成），返回状态、标签、详情与历史报告摘要。"),
     ("inputSchema", Json.obj
       [("type", Json.str "object"),
        ("properties", Json.obj [("project", strProp "项目名称（模糊匹配）")]),
        ("required", Json.arr [Json.str "project"])])],
   Json.obj
    [("name", Json.str "query_task_details"),
     ("description", Json.str "查询指定任务的详情内容（包含 markdown、图片、文件引用等）。"),
     ("inputSchema", Json.obj
       [("type", Json.str "object"),
        ("properties", Json.obj
          [("project", strProp "项目名称（模糊匹配）"),
           ("task_id", strProp "任务 ID")]),
        ("required", Json.arr [Json.str "project", Json.str "task_id"])])],
   Json.obj
    [("name", Json.str "read_asset_image"),
     ("description", Json.str "读取任务中的本地图片 asset，并以 MCP image 内容块返回（避免 maple://）。"),
     ("inputSchema", Json.obj
       [("type", Json.str "object"),
        ("properties", Json.obj
          [("file_name", strProp "asset 文件名（hash.ext），也支持 asset://... / maple://... 形式。")]),
        ("required", Json.arr [Json.str "file_name"])])],
   Json.obj
    [("name", Json.str "query_recent_context"),
     ("description", Json.str "查询最近任务报告，支持项目名和关键词过滤。"),
     ("inputSchema", Json.obj
       [("type", Json.str "object"),
        ("properties", Json.obj
          [("project", strProp "项目名称（可选，模糊匹配）"),
           ("keyword", strProp "搜索关键词（可选）"),
           ("limit", Json.obj [("type", Json.str "number"), ("description", Json.str "最多返回条数")])])])],
   Json.obj
    [("name", Json.str "submit_task_report"),
     ("description", Json.str "提交任务执行报告，并可修改任务状态。"),
     ("inputSchema", Json.obj
       [("type", Json.str "object"),
        ("properties", Json.obj
          [("project", strProp "项目名称"),
           ("task_id", strProp "任务 ID"),
           ("status", Json.obj
             [("type", Json.str "string"),
              ("enum", Json.arr
                [Json.str "草稿", Json.str "待办", Json.str "待返工", Json.str "队列中",
                 Json.str "进行中", Json.str "需要更多信息", Json.str "已完成", Json.str "已阻塞"]),
              ("description", Json.str "新状态（可选）")]),
           ("report", strProp "报告内容"),
           ("tags", Json.obj
             [("type", Json.str "array"),
              ("items", Json.obj [("type", Json.str "string")]),
              ("description", Json.str "标签列表（可选，0-5 个）")])]),
        ("required", Json.arr [Json.str "project", Json.str "task_id", Json.str "report"])])],
   Json.obj
    [("name", Json.str "query_tag_catalog"),
     ("description", Json.str "查询项目 Tag Catalog（标签定义：颜色/图标/多语言 label）。"),
     ("inputSchema", Json.obj
       [("type", Json.str "object"),
        ("properties", Json.obj [("project", strProp "项目名称（模糊匹配）")]),
        ("required", Json.arr [Json.str "project"])])],
   Json.obj
    [("name", Json.str "upsert_tag_definition"),
     ("description", Json.str "创建或更新 Tag 定义（用于 UI 渲染颜色/图标/多语言 label）。"),
     ("inputSchema", Json.obj
       [("type", Json.str "object"),
        ("properties", Json.obj
          [("project", strProp "项目名称（模糊匹配）"),
           ("tag", strProp "Tag ID（会被 trim + lower-case 归一化）"),
           ("color", strProp "CSS 颜色（例如 #22c55e / hsl(...) / var(--color-primary)）"),
           ("icon", strProp "Iconify 图标（仅允许 mingcute 集，例如 mingcute:tag-line）"),
           ("label_zh", strProp "中文展示名（可选）"),
           ("label_en", strProp "英文展示名（可选）")]),
        ("required", Json.arr [Json.str "project", Json.str "tag"])])],
   Json.obj
    [("name", Json.str "finish_worker"),
     ("description", Json.str "通知 Maple 当前 Worker 已执行完毕。调用前必须确保项目内无待办/待返工/队列中/进行中任务。"),
     ("inputSchema", Json.obj
       [("type", Json.str "object"),
        ("properties", Json.obj
          [("project", strProp "项目名称"),
           ("summary", strProp "执行总结（可选）")]),
        ("required", Json.arr [Json.str "project"])])]]

-- ── mcp_http.rs: JSON-RPC / MCP handler ──

def rpcResult (id result : Json) : Json :=
  Json.obj [("jsonrpc", Json.str "2.0"), ("id", id), ("result", result)]

def rpcError (id : Json) (code : Int) (message : String) : Json :=
  Json.obj [("jsonrpc", Json.str "2.0"), ("id", id),
            ("error", Json.obj [("code", Json.num code), ("message", Json.str message)])]

/-- Environment of one handle_mcp_post invocation: the projects read_state
returns during the call, the asset environment, and the wall clock. -/
structure McpEnv where
  projects : List Project
  assetEnv : AssetEnv
  now : String
  ts : Nat

/-- handle_mcp_post as a function from the request body to the HTTP status
code and the JSON body of the response (axum returns the 202 branch with a
JSON null body). -/
def handle_mcp_post (env : McpEnv) (body : Json) : Nat × Json :=
  let id := body.get? "id"
  let method := ((body.get? "method").bind Json.asStr?).getD ""
  let params := (body.get? "params").getD (Json.obj [])
  if id.isNone ∨ (id.map Json.isNull).getD false then (202, Json.null)
  else
    let idVal := id.getD Json.null
    if method = "initialize" then
      (200, rpcResult idVal (Json.obj
        [("protocolVersion", Json.str "2025-03-26"),
         ("capabilities", Json.obj [("tools", Json.obj [])]),
         ("serverInfo", Json.obj [("name", Json.str "maple"), ("version", Json.str "0.1.0")])]))
    else if method = "ping" then (200, rpcResult idVal (Json.obj []))
    else if method = "tools/list" then
      (200, rpcResult idVal (Json.obj [("tools", Json.arr tool_definitions)]))
    else if method = "tools/call" then
      let toolName := ((params.get? "name").bind Json.asStr?).getD ""
      let arguments := (params.get? "arguments").getD (Json.obj [])
      let result :=
        if toolName = "query_project_todos" then tool_query_project_todos env.projects arguments
        else if toolName = "query_recent_context" then tool_query_recent_context env.projects arguments
        else if toolName = "query_task_details" then tool_query_task_details env.assetEnv env.projects arguments
        else if toolName = "read_asset_image" then tool_read_asset_image env.assetEnv arguments
        else if toolName = "submit_task_report" then
          (tool_submit_task_report env.projects arguments env.now env.ts).response
        else if toolName = "query_tag_catalog" then tool_query_tag_catalog env.projects arguments
        else if toolName = "upsert_tag_definition" then
          (tool_upsert_tag_definition env.projects arguments).response
        else if toolName = "finish_worker" then
          (tool_finish_worker env.projects arguments env.now).response
        else errorResponse ("未知工具：" ++ toolName)
      (200, rpcResult idVal result)
    else
      (200, rpcError idVal (-32601) ("Method not found: " ++ method))

-- ── main.rs: run_command ──

/-- std::process::ExitStatus — code() is none when the child was killed by
a signal. -/
structure ExitStatusModel where
  exitCode : Option Int

/-- ExitStatus::success — exit code zero. -/
def statusSuccess (s : ExitStatusModel) : Bool :=
  s.exitCode = some 0

/-- Outcome of build_cli_command(...).output(): either the OS refused to
spawn the child, or the child ran to completion with captured output. -/
inductive SpawnOutcome where
  | spawnError (message : String) : SpawnOutcome
  | exited (status : ExitStatusModel) (stdoutBytes stderrBytes : List Nat) : SpawnOutcome

structure WorkerCommandResult where
  success : Bool
  code : Option Int
  stdout : String
  stderr : String

/-- main.rs run_command. The child-process machinery (build_cli_command,
normalize_cwd, Command::output) is abstracted as the spawn outcome and
String::from_utf8_lossy as the utf8Lossy parameter. -/
def run_command (executable : String) (spawn : SpawnOutcome)
    (utf8Lossy : List Nat → String) : Except String WorkerCommandResult :=
  let ex := rustTrim executable
  if ex = "" then .error "worker executable 不能为空"
  else
    match spawn with
    | .spawnError e => .error ("执行命令失败: " ++ e)
    | .exited status outBytes errBytes =>
      .ok { success := statusSuccess status,
            code := status.exitCode,
            stdout := rustTrim (utf8Lossy outBytes),
            stderr := rustTrim (utf8Lossy errBytes) }

-- ── Spec-side definitions used to state the claims ──

/-- The terminal status set of the completion-gate claim: done (已完成),
blocked (已阻塞), need_info (需要更多信息), and draft (草稿), the
richer-workflow exclusion. -/
def claimTerminalStatuses : List String :=
  ["已完成", "已阻塞", "需要更多信息", "草稿"]

/-- findProject resolution exactly as the spec words it: rule (1) exact
case-insensitive match of the trimmed query against a trimmed project
name; otherwise rule (2), only when the query looks like a filesystem
path, equality of normalized directory keys; otherwise rule (3)
case-insensitive substring match on the project name. Each rule is only
consulted when every earlier rule matched nothing. -/
def findProjectSpecRules (projects : List Project) (query : String) : Option Nat :=
  let raw := rustTrim query
  if raw = "" then none
  else
    match projects.findIdx? (fun p => rustLower (rustTrim p.name) = rustLower raw) with
    | some i => some i
    | none =>
      match
        (if is_path_like raw then
          match normalize_directory_key raw with
          | some key =>
            projects.findIdx? (fun p => normalize_directory_key p.directory = some key)
          | none => none
         else none) with
      | some i => some i
      | none => projects.findIdx? (fun p => rustContainsSub (rustLower p.name) (rustLower raw))

/-- The asset file-name shape of the claim: 64 lowercase hex characters,
one dot, then a 1-to-8-character ASCII alphanumeric extension. -/
def validAssetNameShape (s : String) : Prop :=
  ∃ hash ext : List Char,
    s.toList = hash ++ '.' :: ext ∧
    hash.length = 64 ∧ (∀ c ∈ hash, isLowerHexChar c = true) ∧
    1 ≤ ext.length ∧ ext.length ≤ 8 ∧ (∀ c ∈ ext, c.isAlphanum = true)

def labelZhOf (d : TagDefinition) : Option String :=
  d.label.bind (fun l => l.zh)

def labelEnOf (d : TagDefinition) : Option String :=
  d.label.bind (fun l => l.en)

/-- First-writer-wins on tag-definition fields: every field already set in
d keeps its value in d2. -/
def preservesSetFields (d d2 : TagDefinition) : Prop :=
  (∀ v, d.color = some v → d2.color = some v) ∧
  (∀ v, d.icon = some v → d2.icon = some v) ∧
  (∀ v, labelZhOf d = some v → labelZhOf d2 = some v) ∧
  (∀ v, labelEnOf d = some v → labelEnOf d2 = some v)

/-- The task slot a submit_task_report sequence targets. -/
def taskAt (projects : List Project) (pidx tidx : Nat) : Task :=
  (projects.getD pidx defaultProject).tasks.getD tidx defaultTask

/-- Sequential execution of submit_task_report calls, each one reading the
state the previous call wrote (a call that writes nothing leaves the state
unchanged). -/
def submitSeq (projects : List Project) : List (Json × String × Nat) → List Project
  | [] => projects
  | c :: cs =>
    submitSeq ((tool_submit_task_report projects c.1 c.2.1 c.2.2).written.getD projects) cs

-- ── Concrete fixtures for counterexamples and witnesses ──

def wslProject : Project :=
  { defaultProject with name := "alpha", directory := "C:\\Users\\alice\\proj" }

def c2Catalog : TagCatalog :=
  [("x", { color := some "red" })]

def c2Project : Project :=
  { defaultProject with name := "demo", tagCatalog := c2Catalog }

def c2Args : Json :=
  Json.obj [("project", Json.str "demo"), ("tag", Json.str "x"), ("color", Json.str "blue")]

def demoTodoTask : Task :=
  { defaultTask with id := "A", title := "taskA", status := "待办", updatedAt := "2024-01-01T00:00:00.000Z" }

def demoDoneTask : Task :=
  { defaultTask with id := "B", title := "taskB", status := "已完成", updatedAt := "2024-01-01T00:00:00.000Z" }

def demoProjectMixed : Project :=
  { defaultProject with id := "p1", name := "Demo", tasks := [demoTodoTask, demoDoneTask] }

def demoProjectDone : Project :=
  { defaultProject with id := "p1", name := "Demo", tasks := [demoDoneTask] }

def demoSubmitArgs : Json :=
  Json.obj [("project", Json.str "Demo"), ("task_id", Json.str "A"),
            ("report", Json.str "done"), ("status", Json.str "已完成")]

def c3calls : List (Json × String × Nat) :=
  [(demoSubmitArgs, "2024-01-02T00:00:00.000Z", 1),
   (demoSubmitArgs, "2024-01-03T00:00:00.000Z", 2)]

def demoAssetEnv : AssetEnv :=
  { assetDir := .ok "/home/u/.maple/assets",
    fileExists := fun _ => false,
    readFile := fun _ => .error "io",
    b64encode := fun _ => "" }

def demoMcpEnv : McpEnv :=
  { projects := [], assetEnv := demoAssetEnv, now := "2024-01-02T00:00:00.000Z", ts := 1 }

-- ── Theorems ──

/-- C6: read_state returns the empty project list both when the persisted
state file does not exist and when its contents cannot be read or parsed;
being a total function into List Project, loading never raises. -/
theorem read_state_missing_or_corrupt_yields_empty :
    ∀ (parse : String → Option (List Project)) (content : String),
      read_state parse StateFile.missing = [] ∧
      read_state parse StateFile.unreadable = [] ∧
      (parse content = none → read_state parse (StateFile.raw content) = []) ∧
      (∀ ps, parse content = some ps → read_state parse (StateFile.raw content) = ps) := by
  intro parse content
  refine ⟨rfl, rfl, ?_, ?_⟩
  · intro h
    simp [read_state, h]
  · intro ps h
    simp [read_state, h]

theorem read_state_missing_or_corrupt_yields_empty_witness :
    read_state (fun _ => none) StateFile.missing = [] ∧
    read_state (fun _ => none) (StateFile.raw "not json") = [] :=
  ⟨(read_state_missing_or_corrupt_yields_empty (fun _ => none) "not json").1,
   (read_state_missing_or_corrupt_yields_empty (fun _ => none) "not json").2.2.1 rfl⟩

/-- C8: every POST /mcp request whose id member is absent or JSON null is
answered with HTTP 202 and a null body, regardless of method. -/
theorem notification_answered_202_no_body :
    ∀ (env : McpEnv) (body : Json),
      (body.get? "id" = none ∨ body.get? "id" = some Json.null) →
      handle_mcp_post env body = (202, Json.null) := by
  intro env body h
  rcases h with h | h <;> simp [handle_mcp_post, h, Json.isNull]

theorem notification_answered_202_no_body_witness :
    handle_mcp_post demoMcpEnv (Json.obj [("method", Json.str "tools/list")]) = (202, Json.null) ∧
    handle_mcp_post demoMcpEnv
      (Json.obj [("id", Json.null), ("method", Json.str "submit_task_report")]) = (202, Json.null) :=
  ⟨notification_answered_202_no_body demoMcpEnv _ (Or.inl rfl),
   notification_answered_202_no_body demoMcpEnv _ (Or.inr rfl)⟩

/-- C9: run_command errs exactly when the executable cannot be spawned
(blank executable or spawn failure); a spawned process that exits yields a
normal result whose success flag holds iff the exit code is zero, with the
exit code and trimmed lossily-decoded outputs captured — a non-zero exit
is data, never an error. -/
theorem run_command_exit_is_data_not_error :
    ∀ (executable : String) (spawn : SpawnOutcome) (utf8Lossy : List Nat → String),
      ((∃ e, run_command executable spawn utf8Lossy = .error e) ↔
        (rustTrim executable = "" ∨ ∃ m, spawn = SpawnOutcome.spawnError m)) ∧
      (∀ status outBytes errBytes,
        spawn = SpawnOutcome.exited status outBytes errBytes →
        ¬ rustTrim executable = "" →
        ∃ r, run_command executable spawn utf8Lossy = .ok r ∧
          (r.success = true ↔ status.exitCode = some 0) ∧
          r.code = status.exitCode ∧
          r.stdout = rustTrim (utf8Lossy outBytes) ∧
          r.stderr = rustTrim (utf8Lossy errBytes)) := by
  intro executable spawn utf8Lossy
  constructor
  · by_cases hex : rustTrim executable = ""
    · simp [run_command, hex]
    · cases spawn with
      | spawnError m => simp [run_command, hex]
      | exited status outBytes errBytes => simp [run_command, hex]
  · intro status outBytes errBytes hspawn hex
    subst hspawn
    refine ⟨{ success := statusSuccess status, code := status.exitCode,
              stdout := rustTrim (utf8Lossy outBytes),
              stderr := rustTrim (utf8Lossy errBytes) }, ?_, ?_, rfl, rfl, rfl⟩
    · simp [run_command, hex]
    · simp [statusSuccess]

theorem run_command_exit_is_data_not_error_witness :
    ∃ r, run_command "sh" (SpawnOutcome.exited ⟨some 2⟩ [] []) (fun _ => "") = .ok r ∧
      (r.success = true ↔ (⟨some 2⟩ : ExitStatusModel).exitCode = some 0) ∧
      r.code = (⟨some 2⟩ : ExitStatusModel).exitCode ∧
      r.stdout = rustTrim ((fun _ => "") ([] : List Nat)) ∧
      r.stderr = rustTrim ((fun _ => "") ([] : List Nat)) :=
  (run_command_exit_is_data_not_error "sh" (SpawnOutcome.exited ⟨some 2⟩ [] []) (fun _ => "")).2
    ⟨some 2⟩ [] [] rfl (by decide)

/-- C5 counterexample: query_project_todos takes a project argument; the
project "nope" does not resolve against the empty project list, yet the
tool answers with a plain text content block carrying no isError marker. -/
theorem query_project_todos_lookup_failure_lacks_isError :
    find_project_index [] "nope" = none ∧
    (tool_query_project_todos [] (Json.obj [("project", Json.str "nope")])).get? "isError" = none ∧
    tool_query_project_todos [] (Json.obj [("project", Json.str "nope")]) =
      contentResponse "未找到匹配项目「nope」。可用项目：（无）" :=
  ⟨rfl, rfl, rfl⟩

/-- C2 counterexample: tag x of project demo already has color red; an
upsert_tag_definition call supplying color blue succeeds and replaces the
set color, so the operation does not only fill in missing fields. -/
theorem upsert_tag_definition_overwrites_set_color :
    catFind c2Project.tagCatalog "x" = some { color := some "red" } ∧
    (tool_upsert_tag_definition [c2Project] c2Args).response.get? "isError" = none ∧
    catFind (((tool_upsert_tag_definition [c2Project] c2Args).written.getD []).getD 0
        defaultProject).tagCatalog "x" = some { color := some "blue" } :=
  ⟨rfl, rfl, by decide⟩

/-- C7: a POST carrying a non-null id whose method is none of initialize,
ping, tools/list, tools/call is answered with HTTP 200 and a JSON-RPC
error object of code -32601; an unknown tool name under tools/call is
instead answered as a result wrapping an isError content block. -/
theorem unknown_method_32601_unknown_tool_isError :
    ∀ (env : McpEnv) (body : Json) (idv : Json),
      body.get? "id" = some idv →
      idv.isNull = false →
      (¬ ((body.get? "method").bind Json.asStr?).getD "" ∈
          (["initialize", "ping", "tools/list", "tools/call"] : List String) →
        handle_mcp_post env body =
          (200, rpcError idv (-32601)
            ("Method not found: " ++ ((body.get? "method").bind Json.asStr?).getD ""))) ∧
      (((body.get? "method").bind Json.asStr?).getD "" = "tools/call" →
        ¬ ((((body.get? "params").getD (Json.obj [])).get? "name").bind Json.asStr?).getD "" ∈
            (["query_project_todos", "query_recent_context", "query_task_details",
              "read_asset_image", "submit_task_report", "query_tag_catalog",
              "upsert_tag_definition", "finish_worker"] : List String) →
        handle_mcp_post env body =
          (200, rpcResult idv (errorResponse ("未知工具：" ++
            ((((body.get? "params").getD (Json.obj [])).get? "name").bind Json.asStr?).getD "")))) := by
  intro env body idv hid hnull
  constructor
  · intro hmem
    simp only [List.mem_cons, List.not_mem_nil, or_false, not_or] at hmem
    obtain ⟨h1, h2, h3, h4⟩ := hmem
    simp [handle_mcp_post, hid, hnull, h1, h2, h3, h4]
  · intro hm hmem
    simp only [List.mem_cons, List.not_mem_nil, or_false, not_or] at hmem
    obtain ⟨t1, t2, t3, t4, t5, t6, t7, t8⟩ := hmem
    simp [handle_mcp_post, hid, hnull, hm, t1, t2, t3, t4, t5, t6, t7, t8]

theorem unknown_method_32601_unknown_tool_isError_witness :
    handle_mcp_post demoMcpEnv
        (Json.obj [("id", Json.num 1), ("method", Json.str "unknown_method")]) =
      (200, rpcError (Json.num 1) (-32601) ("Method not found: " ++
        ((((Json.obj [("id", Json.num 1), ("method", Json.str "unknown_method")]).get?
            "method").bind Json.asStr?).getD ""))) ∧
    handle_mcp_post demoMcpEnv
        (Json.obj [("id", Json.num 2), ("method", Json.str "tools/call"),
                   ("params", Json.obj [("name", Json.str "bogus_tool")])]) =
      (200, rpcResult (Json.num 2) (errorResponse ("未知工具：" ++
        (((((Json.obj [("id", Json.num 2), ("method", Json.str "tools/call"),
              ("params", Json.obj [("name", Json.str "bogus_tool")])]).get?
            "params").getD (Json.obj [])).get? "name").bind Json.asStr?).getD ""))) :=
  ⟨(unknown_method_32601_unknown_tool_isError demoMcpEnv
      (Json.obj [("id", Json.num 1), ("method", Json.str "unknown_method")])
      (Json.num 1) (by rfl) (by rfl)).1 (by decide),
   (unknown_method_32601_unknown_tool_isError demoMcpEnv
      (Json.obj [("id", Json.num 2), ("method", Json.str "tools/call"),
                 ("params", Json.obj [("name", Json.str "bogus_tool")])])
      (Json.num 2) (by rfl) (by rfl)).2 (by rfl) (by decide)⟩

theorem find_project_eq_rules (projects : List Project) (query : String) :
    find_project_index projects query = findProjectSpecRules projects query := by
  unfold find_project_index findProjectSpecRules
  by_cases h0 : rustTrim query = ""
  · simp [h0]
  · simp only [h0, if_false, if_neg]
    cases h1 : projects.findIdx? (fun p => rustLower (rustTrim p.name) = rustLower (rustTrim query)) with
    | some i => simp [Option.orElse]
    | none =>
      simp only [Option.orElse, Option.none_orElse]
      by_cases h2 : is_path_like (rustTrim query)
      · simp only [h2, if_true, not_true, if_neg, if_pos]
        cases h3 : normalize_directory_key (rustTrim query) with
        | some key =>
          simp only [Option.bind_some, Option.some_bind]
          cases h4 : projects.findIdx? (fun p =>
              normalize_directory_key p.directory = some key) with
          | some i => simp
          | none => simp
        | none => simp
      · simp [h2]

/-- C4: find_project_index tries the three resolution rules in order and
stops at the first rule that matches anything — exact case-insensitive
trimmed-name match, then (for path-shaped queries) normalized directory
key equality, then case-insensitive name substring match — and the
WSL-style query /mnt/c/Users/alice/proj resolves to the project whose
directory is the Windows spelling of the same folder. -/
theorem find_project_rules_in_order_and_wsl :
    (∀ (projects : List Project) (query : String),
       find_project_index projects query = findProjectSpecRules projects query) ∧
    normalize_directory_key "/mnt/c/Users/alice/proj" =
      normalize_directory_key "C:\\Users\\alice\\proj" ∧
    find_project_index [wslProject] "/mnt/c/Users/alice/proj" = some 0 :=
  ⟨find_project_eq_rules, by decide, by decide⟩

/-- C5 (amended): an unresolved project or task id yields a tool-level
isError content block — never a protocol-level JSON-RPC error — for
query_task_details, submit_task_report, query_tag_catalog,
upsert_tag_definition and finish_worker, and every tools/call request
with a non-null id is answered as a JSON-RPC result; query_project_todos
(and query_recent_context), however, answer an unresolved project with a
plain non-error text block. -/
theorem errorResponse_isError (t : String) :
    (errorResponse t).get? "isError" = some (Json.bool true) := rfl

theorem contentResponse_no_isError (t : String) :
    (contentResponse t).get? "isError" = none := rfl

theorem lookup_failures_are_tool_level_errors :
    ∀ (env : AssetEnv) (projects : List Project) (args : Json) (now : String) (ts : Nat),
      (find_project_index projects (args.getStr "project" "") = none →
        (tool_query_task_details env projects args).get? "isError" = some (Json.bool true) ∧
        (tool_submit_task_report projects args now ts).response.get? "isError" =
          some (Json.bool true) ∧
        (tool_query_tag_catalog projects args).get? "isError" = some (Json.bool true) ∧
        (tool_upsert_tag_definition projects args).response.get? "isError" =
          some (Json.bool true) ∧
        (tool_finish_worker projects args now).response.get? "isError" = some (Json.bool true) ∧
        (tool_query_project_todos projects args).get? "isError" = none) ∧
      (∀ idx, find_project_index projects (args.getStr "project" "") = some idx →
        (∀ t ∈ (projects.getD idx defaultProject).tasks, ¬ t.id = args.getStr "task_id" "") →
        (tool_query_task_details env projects args).get? "isError" = some (Json.bool true) ∧
        (tool_submit_task_report projects args now ts).response.get? "isError" =
          some (Json.bool true)) ∧
      (∀ (menv : McpEnv) (body idv : Json),
        body.get? "id" = some idv → idv.isNull = false →
        ((body.get? "method").bind Json.asStr?).getD "" = "tools/call" →
        ∃ result, handle_mcp_post menv body = (200, rpcResult idv result)) := by
  intro env projects args now ts
  refine ⟨?_, ?_, ?_⟩
  · intro hnone
    refine ⟨?_, ?_, ?_, ?_, ?_, ?_⟩
    · simp only [tool_query_task_details, hnone]
      exact errorResponse_isError _
    · simp only [tool_submit_task_report, hnone]
      exact errorResponse_isError _
    · simp only [tool_query_tag_catalog, hnone]
      exact errorResponse_isError _
    · simp only [tool_upsert_tag_definition, hnone]
      split
      · exact errorResponse_isError _
      · split
        · exact errorResponse_isError _
        · exact errorResponse_isError _
    · simp only [tool_finish_worker, hnone]
      exact errorResponse_isError _
    · simp only [tool_query_project_todos, hnone]
      exact contentResponse_no_isError _
  · intro idx hidx hnotask
    have hfind : (projects.getD idx defaultProject).tasks.find?
        (fun t => decide (t.id = args.getStr "task_id" "")) = none := by
      rw [List.find?_eq_none]
      intro t ht
      simpa using hnotask t ht
    have hfindIdx : (projects.getD idx defaultProject).tasks.findIdx?
        (fun t => decide (t.id = args.getStr "task_id" "")) = none := by
      rw [List.findIdx?_eq_none_iff]
      intro t ht
      simpa using hnotask t ht
    constructor
    · simp only [tool_query_task_details, hidx, hfind]
      exact errorResponse_isError _
    · simp only [tool_submit_task_report, hidx, hfindIdx]
      exact errorResponse_isError _
  · intro menv body idv hid hnull hm
    simp [handle_mcp_post, hid, hnull, hm]

theorem lookup_failures_are_tool_level_errors_witness :
    (tool_submit_task_report [] (Json.obj [("project", Json.str "nope")]) "t" 0).response.get?
        "isError" = some (Json.bool true) ∧
    (tool_query_task_details demoAssetEnv [demoProjectDone]
        (Json.obj [("project", Json.str "Demo"), ("task_id", Json.str "Z")])).get?
        "isError" = some (Json.bool true) :=
  ⟨((lookup_failures_are_tool_level_errors demoAssetEnv []
      (Json.obj [("project", Json.str "nope")]) "t" 0).1 (by decide)).2.1,
   ((lookup_failures_are_tool_level_errors demoAssetEnv [demoProjectDone]
      (Json.obj [("project", Json.str "Demo"), ("task_id", Json.str "Z")]) "t" 0).2.1
      0 (by decide) (by decide)).1⟩

theorem is_terminal_eq_contains (s : String) :
    is_terminal_task_status s = claimTerminalStatuses.contains s := by
  simp only [is_terminal_task_status, claimTerminalStatuses]
  rw [Bool.eq_iff_iff]
  simp [List.contains_eq_any_beq]
  tauto

/-- C1: for a finish_worker call whose project resolves, the call succeeds
— non-error text response, worker-signal payload written, worker-finished
event emitted — iff every task status of the project is in the terminal
set done/blocked/need_info/draft (已完成/已阻塞/需要更多信息/草稿);
otherwise it returns an isError response whose text itemizes exactly the
tasks whose status lies outside that set, and writes and emits nothing. -/
theorem finish_worker_completion_gate :
    ∀ (projects : List Project) (args : Json) (now : String) (idx : Nat),
      find_project_index projects (args.getStr "project" "") = some idx →
      (let target := projects.getD idx defaultProject
       let unresolved :=
         target.tasks.filter (fun t => !(claimTerminalStatuses.contains t.status))
       ((∀ t ∈ target.tasks, t.status ∈ claimTerminalStatuses) →
         tool_finish_worker projects args now =
           { response := contentResponse
               ("已通知 Maple 项目「" ++ target.name ++ "」的 Worker 执行完毕。"),
             written := none,
             signal := some (Json.obj
               [("project", Json.str target.name),
                ("summary", Json.str (args.getStr "summary" "")),
                ("timestamp", Json.str now), ("action", Json.str "finish")]),
             events := [McpEvent.workerFinished target.name (args.getStr "summary" "")] }) ∧
       ((¬ ∀ t ∈ target.tasks, t.status ∈ claimTerminalStatuses) →
         tool_finish_worker projects args now =
           { response := errorResponse (joinWith "\n"
               (["项目「" ++ target.name ++ "」仍有 " ++ toString unresolved.length ++
                   " 个任务未收敛，禁止 finish_worker。",
                 "请先对每条任务调用 submit_task_report，将状态更新为：草稿 / 已完成 / 已阻塞 / 需要更多信息。",
                 ""] ++
                unresolved.enum.map (fun pair =>
                  toString (pair.1 + 1) ++ ". [" ++ pair.2.status ++ "] " ++ pair.2.title ++
                    "  (id: " ++ pair.2.id ++ ")"))),
             written := none, signal := none, events := [] }) ∧
       ((tool_finish_worker projects args now).response.get? "isError" = none ↔
         ∀ t ∈ target.tasks, t.status ∈ claimTerminalStatuses)) := by
  intro projects args now idx hidx
  dsimp only
  have hfilter :
      (projects.getD idx defaultProject).tasks.filter
          (fun t => !(is_terminal_task_status t.status)) =
        (projects.getD idx defaultProject).tasks.filter
          (fun t => !(claimTerminalStatuses.contains t.status)) :=
    List.filter_congr (fun t _ => by rw [is_terminal_eq_contains])
  have hiff :
      ((projects.getD idx defaultProject).tasks.filter
          (fun t => !(claimTerminalStatuses.contains t.status))) = [] ↔
        ∀ t ∈ (projects.getD idx defaultProject).tasks, t.status ∈ claimTerminalStatuses := by
    rw [List.filter_eq_nil_iff]
    constructor
    · intro h t ht
      have := h t ht
      simp only [Bool.not_eq_true', Bool.not_eq_false] at this
      exact List.contains_iff_exists_mem_beq.mp this |>.elim
        (fun x hx => by
          rcases hx with ⟨hmem, hbeq⟩
          rwa [show t.status = x from by simpa using hbeq])
    · intro h t ht
      simp only [Bool.not_eq_true', Bool.not_eq_false]
      rw [List.contains_eq_any_beq]
      simp only [List.any_eq_true]
      exact ⟨t.status, h t ht, by simp⟩
  simp only [tool_finish_worker, hidx, hfilter]
  by_cases hempty :
      ((projects.getD idx defaultProject).tasks.filter
        (fun t => !(claimTerminalStatuses.contains t.status))) = []
  · have hall := hiff.mp hempty
    have hbool : ((projects.getD idx defaultProject).tasks.filter
        (fun t => !(claimTerminalStatuses.contains t.status))).isEmpty = true :=
      List.isEmpty_iff.mpr hempty
    refine ⟨fun _ => ?_, fun hno => absurd hall hno, ?_⟩
    · rw [if_neg (fun hc => hc hbool)]
    · rw [if_neg (fun hc => hc hbool)]
      exact iff_of_true (contentResponse_no_isError _) hall
  · have hno : ¬ ∀ t ∈ (projects.getD idx defaultProject).tasks,
        t.status ∈ claimTerminalStatuses := fun h => hempty (hiff.mpr h)
    have hcond : ¬ (((projects.getD idx defaultProject).tasks.filter
        (fun t => !(claimTerminalStatuses.contains t.status))).isEmpty = true) :=
      fun h => hempty (List.isEmpty_iff.mp h)
    refine ⟨fun hall => absurd hall hno, fun _ => ?_, ?_⟩
    · rw [if_pos hcond]
    · rw [if_pos hcond]
      exact iff_of_false (by simp [errorResponse_isError]) hno

theorem finish_worker_completion_gate_witness :
    (tool_finish_worker [demoProjectDone] (Json.obj [("project", Json.str "Demo")]) "T").signal.isSome
      = true ∧
    (tool_finish_worker [demoProjectMixed] (Json.obj [("project", Json.str "Demo")]) "T").response.get?
      "isError" = some (Json.bool true) := by
  have h1 := finish_worker_completion_gate [demoProjectDone]
    (Json.obj [("project", Json.str "Demo")]) "T" 0 (by decide)
  have h2 := finish_worker_completion_gate [demoProjectMixed]
    (Json.obj [("project", Json.str "Demo")]) "T" 0 (by decide)
  dsimp only at h1 h2
  constructor
  · rw [h1.1 (by decide)]
    rfl
  · rw [h2.2.1 (by decide)]
    exact errorResponse_isError _

theorem preservesSetFields_refl (d : TagDefinition) : preservesSetFields d d :=
  ⟨fun _ h => h, fun _ h => h, fun _ h => h, fun _ h => h⟩

theorem preservesSetFields_trans {a b c : TagDefinition}
    (h1 : preservesSetFields a b) (h2 : preservesSetFields b c) : preservesSetFields a c :=
  ⟨fun v h => h2.1 v (h1.1 v h), fun v h => h2.2.1 v (h1.2.1 v h),
   fun v h => h2.2.2.1 v (h1.2.2.1 v h), fun v h => h2.2.2.2 v (h1.2.2.2 v h)⟩

theorem catFind_catInsert_self (key : String) (v : TagDefinition) (cat : TagCatalog) :
    catFind (catInsert key v cat) key = some v := by
  induction cat with
  | nil => simp [catInsert, catFind]
  | cons head rest ih =>
    obtain ⟨k, w⟩ := head
    by_cases h2 : key = k
    · subst h2
      by_cases h1 : strLt key key = true
      · simp [catInsert, h1, catFind]
      · simp [catInsert, h1, catFind]
    · have h2' : ¬ k = key := fun h => h2 h.symm
      by_cases h1 : strLt key k = true
      · simp [catInsert, h1, catFind]
      · simpa [catInsert, h1, h2, catFind, h2'] using ih

theorem catFind_catInsert_ne (key k2 : String) (v : TagDefinition) (cat : TagCatalog)
    (hne : ¬ k2 = key) : catFind (catInsert key v cat) k2 = catFind cat k2 := by
  have hne' : ¬ key = k2 := fun h => hne h.symm
  induction cat with
  | nil => simp [catInsert, catFind, hne']
  | cons head rest ih =>
    obtain ⟨k, w⟩ := head
    by_cases h1 : strLt key k = true
    · simp [catInsert, h1, catFind, hne']
    · by_cases h2 : key = k
      · subst h2
        simp [catInsert, h1, catFind, hne']
      · by_cases h3 : k = k2
        · subst h3
          simp [catInsert, h1, h2, catFind]
        · simpa [catInsert, h1, h2, catFind, h3] using ih

theorem ensureMergeEntry_preserves (entry0 inferred : TagDefinition) :
    preservesSetFields entry0 (ensureMergeEntry entry0 inferred).1 := by
  obtain ⟨c0, i0, l0⟩ := entry0
  refine ⟨?_, ?_, ?_, ?_⟩
  · intro v hv
    unfold ensureMergeEntry
    dsimp only
    split_ifs <;> simp_all
  · intro v hv
    unfold ensureMergeEntry
    dsimp only
    split_ifs <;> simp_all
  · intro v hv
    simp only [labelZhOf] at hv ⊢
    unfold ensureMergeEntry
    dsimp only
    rcases l0 with _ | ⟨z0, e0⟩
    · simp at hv
    · simp at hv
      subst hv
      rcases he : inferred.label.bind (fun item => item.en) with _ | ev <;>
        split_ifs <;> simp_all
  · intro v hv
    simp only [labelEnOf] at hv ⊢
    unfold ensureMergeEntry
    dsimp only
    rcases l0 with _ | ⟨z0, e0⟩
    · simp at hv
    · simp at hv
      subst hv
      rcases hz : inferred.label.bind (fun item => item.zh) with _ | zv <;>
        split_ifs <;> simp_all

theorem ensureTagStep_preserves (catalog : TagCatalog) (rawTag key : String) (d : TagDefinition)
    (h : catFind catalog key = some d) :
    ∃ d2, catFind (ensureTagStep catalog rawTag).1 key = some d2 ∧ preservesSetFields d d2 := by
  unfold ensureTagStep
  by_cases h0 : normalize_tag_id rawTag = ""
  · simp only [h0, if_true, ite_true, if_pos]
    exact ⟨d, h, preservesSetFields_refl d⟩
  · simp only [h0, ite_false, if_neg, not_false_iff]
    by_cases hk : key = normalize_tag_id rawTag
    · subst hk
      rw [h]
      simp only [Option.getD_some]
      exact ⟨_, catFind_catInsert_self _ _ _, ensureMergeEntry_preserves d _⟩
    · rw [catFind_catInsert_ne _ _ _ _ hk]
      exact ⟨d, h, preservesSetFields_refl d⟩

theorem ensure_catalog_foldl_preserves (tags : List String) :
    ∀ (catalog : TagCatalog) (b : Bool) (key : String) (d : TagDefinition),
      catFind catalog key = some d →
      ∃ d2, catFind (tags.foldl (fun acc rawTag =>
          let r := ensureTagStep acc.1 rawTag
          (r.1, acc.2 || r.2)) (catalog, b)).1 key = some d2 ∧ preservesSetFields d d2 := by
  induction tags with
  | nil =>
    intro catalog b key d h
    exact ⟨d, h, preservesSetFields_refl d⟩
  | cons t ts ih =>
    intro catalog b key d h
    obtain ⟨d1, hfind1, hpres1⟩ := ensureTagStep_preserves catalog t key d h
    obtain ⟨d2, hfind2, hpres2⟩ := ih (ensureTagStep catalog t).1 (b || (ensureTagStep catalog t).2) key d1 hfind1
    exact ⟨d2, by simpa [List.foldl_cons] using hfind2, preservesSetFields_trans hpres1 hpres2⟩

theorem upsertMergeEntry_spec (entry0 : TagDefinition)
    (color icon labelZh labelEn : Option String) :
    (color = none → (upsertMergeEntry entry0 color icon labelZh labelEn).color = entry0.color) ∧
    (∀ cv, color = some cv →
      (upsertMergeEntry entry0 color icon labelZh labelEn).color = some cv) ∧
    (icon = none → (upsertMergeEntry entry0 color icon labelZh labelEn).icon = entry0.icon) ∧
    (∀ iv, icon = some iv →
      (upsertMergeEntry entry0 color icon labelZh labelEn).icon = some (rustLower iv)) ∧
    (labelZh = none → labelZhOf (upsertMergeEntry entry0 color icon labelZh labelEn) =
      labelZhOf entry0) ∧
    (∀ zv, labelZh = some zv →
      labelZhOf (upsertMergeEntry entry0 color icon labelZh labelEn) = some zv) ∧
    (labelEn = none → labelEnOf (upsertMergeEntry entry0 color icon labelZh labelEn) =
      labelEnOf entry0) ∧
    (∀ ev, labelEn = some ev →
      labelEnOf (upsertMergeEntry entry0 color icon labelZh labelEn) = some ev) := by
  obtain ⟨c0, i0, l0⟩ := entry0
  unfold upsertMergeEntry
  cases color <;> cases icon <;> cases labelZh <;> cases labelEn <;>
    rcases l0 with _ | ⟨z0, e0⟩ <;>
    simp_all [labelZhOf, labelEnOf]

/-- C2 (amended): automatic tag-catalog inference only fills in missing
fields — a set color/icon/label.zh/label.en value is never cleared or
overwritten — while upsert_tag_definition never clears a set field and
leaves unsupplied fields untouched, but a supplied non-empty value does
replace an already-set field (last-writer-wins for supplied values);
entries at other tag ids are untouched. -/
theorem tag_catalog_fill_semantics :
    (∀ (catalog : TagCatalog) (tags : List String) (key : String) (d : TagDefinition),
      catFind catalog key = some d →
      ∃ d2, catFind (ensure_tag_catalog_for_tags catalog tags).1 key = some d2 ∧
        preservesSetFields d d2) ∧
    (∀ (projects : List Project) (args : Json) (idx : Nat),
      find_project_index projects (args.getStr "project" "") = some idx →
      ¬ normalize_tag_id (args.getStr "tag" "") = "" →
      (∀ i, nonEmptyTrim ((args.get? "icon").bind Json.asStr?) = some i →
        is_valid_mingcute_icon i = true) →
      (let tagId := normalize_tag_id (args.getStr "tag" "")
       let cat := (projects.getD idx defaultProject).tagCatalog
       let old := (catFind cat tagId).getD {}
       let colorArg := nonEmptyTrim ((args.get? "color").bind Json.asStr?)
       let iconArg := nonEmptyTrim ((args.get? "icon").bind Json.asStr?)
       let zhArg := nonEmptyTrim ((args.get? "label_zh").bind Json.asStr?)
       let enArg := nonEmptyTrim ((args.get? "label_en").bind Json.asStr?)
       ∃ e,
         (tool_upsert_tag_definition projects args).written =
           some (projects.set idx
             { projects.getD idx defaultProject with tagCatalog := catInsert tagId e cat }) ∧
         (colorArg = none → e.color = old.color) ∧
         (∀ cv, colorArg = some cv → e.color = some cv) ∧
         (iconArg = none → e.icon = old.icon) ∧
         (∀ iv, iconArg = some iv → e.icon = some (rustLower iv)) ∧
         (zhArg = none → labelZhOf e = labelZhOf old) ∧
         (∀ zv, zhArg = some zv → labelZhOf e = some zv) ∧
         (enArg = none → labelEnOf e = labelEnOf old) ∧
         (∀ ev, enArg = some ev → labelEnOf e = some ev) ∧
         (∀ k, ¬ k = tagId → catFind (catInsert tagId e cat) k = catFind cat k))) := by
  constructor
  · intro catalog tags key d h
    exact ensure_catalog_foldl_preserves tags catalog false key d h
  · intro projects args idx hidx htag hiconvalid
    dsimp only
    have hinv : ((nonEmptyTrim ((args.get? "icon").bind Json.asStr?)).map
        (fun i => !(is_valid_mingcute_icon i))).getD false = false := by
      cases hi : nonEmptyTrim ((args.get? "icon").bind Json.asStr?) with
      | none => rfl
      | some i => simp [hiconvalid i hi]
    unfold tool_upsert_tag_definition
    dsimp only
    rw [if_neg htag, hinv, if_neg (by exact Bool.false_ne_true), hidx]
    have hspec := upsertMergeEntry_spec
      ((catFind (projects.getD idx defaultProject).tagCatalog
        (normalize_tag_id (args.getStr "tag" ""))).getD {})
      (nonEmptyTrim ((args.get? "color").bind Json.asStr?))
      (nonEmptyTrim ((args.get? "icon").bind Json.asStr?))
      (nonEmptyTrim ((args.get? "label_zh").bind Json.asStr?))
      (nonEmptyTrim ((args.get? "label_en").bind Json.asStr?))
    refine ⟨_, rfl, hspec.1, hspec.2.1, hspec.2.2.1, hspec.2.2.2.1, hspec.2.2.2.2.1,
      hspec.2.2.2.2.2.1, hspec.2.2.2.2.2.2.1, hspec.2.2.2.2.2.2.2, ?_⟩
    intro k hk
    exact catFind_catInsert_ne _ _ _ _ hk

theorem tag_catalog_fill_semantics_witness :
    (∃ d2, catFind (ensure_tag_catalog_for_tags c2Catalog ["x"]).1 "x" = some d2 ∧
      preservesSetFields { color := some "red" } d2) ∧
    (∃ e, (tool_upsert_tag_definition [c2Project] c2Args).written =
      some ([c2Project].set 0 { [c2Project].getD 0 defaultProject with
        tagCatalog := catInsert "x" e c2Catalog })) := by
  constructor
  · exact tag_catalog_fill_semantics.1 c2Catalog ["x"] "x" { color := some "red" } (by decide)
  · have h := tag_catalog_fill_semantics.2 [c2Project] c2Args 0 (by decide) (by decide)
      (fun i hh => nomatch hh)
    dsimp only at h
    obtain ⟨e, he, _⟩ := h
    exact ⟨e, he⟩

theorem set_getD_refl : ∀ (l : List α) (i : Nat) (d : α), l.set i (l.getD i d) = l := by
  intro l
  induction l with
  | nil => intro i d; rfl
  | cons a rest ih =>
    intro i d
    cases i with
    | zero => simp [List.getD_cons_zero]
    | succ n =>
      simp only [List.set_cons_succ, List.getD_cons_succ]
      rw [ih n d]

theorem getD_set_self : ∀ (l : List α) (i : Nat) (x d : α), i < l.length →
    (l.set i x).getD i d = x := by
  intro l
  induction l with
  | nil => intro i x d h; cases h
  | cons a rest ih =>
    intro i x d h
    cases i with
    | zero => simp [List.getD_cons_zero]
    | succ n => simpa [List.getD_cons_succ] using ih n x d (Nat.lt_of_succ_lt_succ h)

theorem getD_map (f : α → β) : ∀ (l : List α) (i : Nat) (d : α),
    (l.map f).getD i (f d) = f (l.getD i d) := by
  intro l
  induction l with
  | nil => intro i d; rfl
  | cons a rest ih =>
    intro i d
    cases i with
    | zero => simp [List.getD_cons_zero]
    | succ n =>
      simp only [List.map_cons, List.getD_cons_succ]
      exact ih n d

theorem findIdx?_of_map_eq (f : α → γ) (g : γ → Bool) :
    ∀ (l l' : List α) (i : Nat), l.map f = l'.map f →
      List.findIdx? (fun x => g (f x)) l i = List.findIdx? (fun x => g (f x)) l' i := by
  intro l
  induction l with
  | nil =>
    intro l' i h
    cases l' with
    | nil => rfl
    | cons b bs => simp at h
  | cons a as ih =>
    intro l' i h
    cases l' with
    | nil => simp at h
    | cons b bs =>
      simp only [List.map_cons, List.cons.injEq] at h
      simp only [List.findIdx?_cons, h.1, ih bs (i + 1) h.2]

theorem map_proj_set (l : List α) (i : Nat) (x : α) (f : α → β) (d : α)
    (hf : f x = f (l.getD i d)) : (l.set i x).map f = l.map f := by
  rw [List.map_set, hf, ← getD_map f l i d, set_getD_refl]

theorem findProjectSpecRules_lt (projects : List Project) (q : String) (i : Nat)
    (h : findProjectSpecRules projects q = some i) : i < projects.length := by
  have hfi : ∀ (p : Project → Bool) (j : Nat),
      List.findIdx? p projects = some j → j < projects.length :=
    fun p j hj => (List.findIdx?_eq_some_iff_findIdx_eq.mp hj).1
  unfold findProjectSpecRules at h
  by_cases h0 : rustTrim q = ""
  · rw [if_pos h0] at h
    cases h
  · rw [if_neg h0] at h
    generalize hA : List.findIdx?
      (fun p => decide (rustLower (rustTrim p.name) = rustLower (rustTrim q))) projects = oA at h
    rcases oA with _ | j
    · dsimp only at h
      by_cases h2 : is_path_like (rustTrim q) = true
      · rw [if_pos h2] at h
        generalize hK : normalize_directory_key (rustTrim q) = oK at h
        rcases oK with _ | key
        · dsimp only at h
          exact hfi _ _ h
        · dsimp only at h
          generalize hB : List.findIdx?
            (fun p => decide (normalize_directory_key p.directory = some key)) projects = oB at h
          rcases oB with _ | j2
          · dsimp only at h
            exact hfi _ _ h
          · dsimp only at h
            cases h
            exact hfi _ _ hB
      · rw [if_neg h2] at h
        dsimp only at h
        exact hfi _ _ h
    · dsimp only at h
      cases h
      exact hfi _ _ hA

theorem find_project_index_lt (projects : List Project) (q : String) (i : Nat)
    (h : find_project_index projects q = some i) : i < projects.length := by
  rw [find_project_eq_rules] at h
  exact findProjectSpecRules_lt projects q i h

/-- Projection of a project to the fields find_project_index inspects. -/
def lookupProj (p : Project) : String × String :=
  (p.name, p.directory)

theorem find_project_index_map_congr (ps ps' : List Project) (q : String)
    (h : ps.map lookupProj = ps'.map lookupProj) :
    find_project_index ps q = find_project_index ps' q := by
  have e1 : ps.findIdx? (fun p => rustLower (rustTrim p.name) = rustLower (rustTrim q)) =
      ps'.findIdx? (fun p => rustLower (rustTrim p.name) = rustLower (rustTrim q)) :=
    findIdx?_of_map_eq lookupProj
      (fun pr => rustLower (rustTrim pr.1) = rustLower (rustTrim q)) ps ps' 0 h
  have e3 : ps.findIdx? (fun p => rustContainsSub (rustLower p.name) (rustLower (rustTrim q))) =
      ps'.findIdx? (fun p => rustContainsSub (rustLower p.name) (rustLower (rustTrim q))) :=
    findIdx?_of_map_eq lookupProj
      (fun pr => rustContainsSub (rustLower pr.1) (rustLower (rustTrim q))) ps ps' 0 h
  rw [find_project_eq_rules, find_project_eq_rules]
  unfold findProjectSpecRules
  by_cases h0 : rustTrim q = ""
  · simp [h0]
  · rw [if_neg h0, if_neg h0]
    rw [e1]
    by_cases h2 : is_path_like (rustTrim q)
    · rw [if_pos h2, if_pos h2]
      cases h3 : normalize_directory_key (rustTrim q) with
      | some key =>
        have e2 : ps.findIdx? (fun p => normalize_directory_key p.directory = some key) =
            ps'.findIdx? (fun p => normalize_directory_key p.directory = some key) :=
          findIdx?_of_map_eq lookupProj
            (fun pr => normalize_directory_key pr.2 = some key) ps ps' 0 h
        dsimp only
        rw [e2, e3]
      | none =>
        dsimp only
        rw [e3]
    · rw [if_neg h2, if_neg h2, e3]

theorem submit_step_spec (projects : List Project) (args : Json) (now : String) (ts : Nat)
    (pidx tidx : Nat)
    (hp : find_project_index projects (args.getStr "project" "") = some pidx)
    (ht : (projects.getD pidx defaultProject).tasks.findIdx?
        (fun t => t.id = args.getStr "task_id" "") = some tidx) :
    (tool_submit_task_report projects args now ts).response.get? "isError" = none ∧
    ∃ projects2, (tool_submit_task_report projects args now ts).written = some projects2 ∧
      (∃ r, (taskAt projects2 pidx tidx).reports = (taskAt projects pidx tidx).reports ++ [r] ∧
        r.createdAt = now ∧ r.content = args.getStr "report" "" ∧
        r.id = "report-" ++ toString ts ∧ r.author = "mcp") ∧
      (taskAt projects2 pidx tidx).updatedAt = now ∧
      find_project_index projects2 (args.getStr "project" "") = some pidx ∧
      (projects2.getD pidx defaultProject).tasks.findIdx?
        (fun t => t.id = args.getStr "task_id" "") = some tidx := by
  have hplt : pidx < projects.length := find_project_index_lt _ _ _ hp
  have htlt : tidx < (projects.getD pidx defaultProject).tasks.length :=
    (List.findIdx?_eq_some_iff_findIdx_eq.mp ht).1
  unfold tool_submit_task_report
  dsimp only
  rw [hp]
  dsimp only
  rw [ht]
  dsimp only
  refine ⟨contentResponse_no_isError _, ?_⟩
  refine ⟨_, rfl,
    ⟨⟨"report-" ++ toString ts, "mcp", args.getStr "report" "", now⟩, ?_, rfl, rfl, rfl, rfl⟩,
    ?_, ?_, ?_⟩
  · unfold taskAt
    rw [getD_set_self _ _ _ _ hplt]
    dsimp only
    rw [getD_set_self _ _ _ _ htlt]
  · unfold taskAt
    rw [getD_set_self _ _ _ _ hplt]
    dsimp only
    rw [getD_set_self _ _ _ _ htlt]
  · refine (find_project_index_map_congr _ projects _
      (map_proj_set projects pidx _ lookupProj defaultProject ?_)).trans hp
    rfl
  · rw [getD_set_self _ _ _ _ hplt]
    dsimp only
    refine (findIdx?_of_map_eq Task.id (fun s => s = args.getStr "task_id" "") _ _ 0
      (map_proj_set _ tidx _ Task.id defaultTask ?_)).trans ht
    rfl

theorem submitSeq_append (l1 : List (Json × String × Nat)) :
    ∀ (l2 : List (Json × String × Nat)) (projects : List Project),
      submitSeq projects (l1 ++ l2) = submitSeq (submitSeq projects l1) l2 := by
  induction l1 with
  | nil => intro l2 projects; rfl
  | cons c cs ih => intro l2 projects; exact ih l2 _

theorem submitSeq_resolves (calls : List (Json × String × Nat)) :
    ∀ (projects : List Project) (pname tid : String) (pidx tidx : Nat),
      (∀ c ∈ calls, c.1.getStr "project" "" = pname ∧ c.1.getStr "task_id" "" = tid) →
      find_project_index projects pname = some pidx →
      (projects.getD pidx defaultProject).tasks.findIdx? (fun t => t.id = tid) = some tidx →
      find_project_index (submitSeq projects calls) pname = some pidx ∧
      ((submitSeq projects calls).getD pidx defaultProject).tasks.findIdx?
        (fun t => t.id = tid) = some tidx := by
  induction calls with
  | nil =>
    intro projects pname tid pidx tidx _ hp ht
    exact ⟨hp, ht⟩
  | cons c cs ih =>
    intro projects pname tid pidx tidx hall hp ht
    obtain ⟨hc1, hc2⟩ := hall c (List.mem_cons_self c cs)
    obtain ⟨_, projects2, hw, _, _, hp2, ht2⟩ :=
      submit_step_spec projects c.1 c.2.1 c.2.2 pidx tidx (by rw [hc1]; exact hp)
        (by rw [hc2]; exact ht)
    have hstep : submitSeq projects (c :: cs) = submitSeq projects2 cs := by
      show submitSeq ((tool_submit_task_report projects c.1 c.2.1 c.2.2).written.getD projects) cs
        = submitSeq projects2 cs
      rw [hw]
      rfl
    rw [hstep]
    exact ih projects2 pname tid pidx tidx (fun d hd => hall d (List.mem_cons_of_mem c hd))
      (by rw [← hc1]; exact hp2) (by rw [← hc2]; exact ht2)

theorem submitSeq_reports_spec (calls : List (Json × String × Nat)) :
    ∀ (projects : List Project) (pname tid : String) (pidx tidx : Nat),
      (∀ c ∈ calls, c.1.getStr "project" "" = pname ∧ c.1.getStr "task_id" "" = tid) →
      find_project_index projects pname = some pidx →
      (projects.getD pidx defaultProject).tasks.findIdx? (fun t => t.id = tid) = some tidx →
      (taskAt (submitSeq projects calls) pidx tidx).reports.length =
        (taskAt projects pidx tidx).reports.length + calls.length ∧
      (taskAt (submitSeq projects calls) pidx tidx).reports.take
          (taskAt projects pidx tidx).reports.length = (taskAt projects pidx tidx).reports ∧
      ((List.range (calls.length + 1)).map (fun n =>
          (taskAt (submitSeq projects (calls.take n)) pidx tidx).updatedAt) =
        (taskAt projects pidx tidx).updatedAt :: calls.map (fun c => c.2.1)) := by
  induction calls with
  | nil =>
    intro projects pname tid pidx tidx _ _ _
    refine ⟨rfl, List.take_length _, ?_⟩
    rfl
  | cons c cs ih =>
    intro projects pname tid pidx tidx hall hp ht
    obtain ⟨hc1, hc2⟩ := hall c (List.mem_cons_self c cs)
    obtain ⟨_, projects2, hw, ⟨r, hrep, hrnow, _, _, _⟩, hupd, hp2, ht2⟩ :=
      submit_step_spec projects c.1 c.2.1 c.2.2 pidx tidx (by rw [hc1]; exact hp)
        (by rw [hc2]; exact ht)
    have hstep : ∀ l, submitSeq projects (c :: l) = submitSeq projects2 l := by
      intro l
      show submitSeq ((tool_submit_task_report projects c.1 c.2.1 c.2.2).written.getD projects) l
        = submitSeq projects2 l
      rw [hw]
      rfl
    obtain ⟨ihlen, ihtake, ihtrace⟩ :=
      ih projects2 pname tid pidx tidx (fun d hd => hall d (List.mem_cons_of_mem c hd))
        (by rw [← hc1]; exact hp2) (by rw [← hc2]; exact ht2)
    have hlen2 : (taskAt projects2 pidx tidx).reports.length =
        (taskAt projects pidx tidx).reports.length + 1 := by
      rw [hrep]
      simp
    refine ⟨?_, ?_, ?_⟩
    · rw [hstep cs, ihlen, hlen2]
      simp [Nat.add_assoc, Nat.add_comm 1 cs.length]
    · rw [hstep cs]
      have hle : (taskAt projects pidx tidx).reports.length ≤
          (taskAt projects2 pidx tidx).reports.length := by
        rw [hlen2]
        exact Nat.le_succ _
      calc (taskAt (submitSeq projects2 cs) pidx tidx).reports.take
            (taskAt projects pidx tidx).reports.length
          = ((taskAt (submitSeq projects2 cs) pidx tidx).reports.take
              (taskAt projects2 pidx tidx).reports.length).take
              (taskAt projects pidx tidx).reports.length := by
            rw [List.take_take, Nat.min_eq_left hle]
        _ = (taskAt projects2 pidx tidx).reports.take
              (taskAt projects pidx tidx).reports.length := by rw [ihtake]
        _ = (taskAt projects pidx tidx).reports := by
            rw [hrep, List.take_left]
    · simp only [List.length_cons]
      rw [List.range_succ_eq_map, List.map_cons, List.map_map]
      have hfun : ((fun n =>
            (taskAt (submitSeq projects ((c :: cs).take n)) pidx tidx).updatedAt) ∘ Nat.succ)
          = fun n => (taskAt (submitSeq projects2 (cs.take n)) pidx tidx).updatedAt := by
        funext n
        show (taskAt (submitSeq projects ((c :: cs).take (n + 1))) pidx tidx).updatedAt = _
        rw [List.take_succ_cons, hstep (cs.take n)]
      rw [hfun, ihtrace, hupd]
      rfl

/-- C3: over any sequence of successful submit_task_report calls targeting
the same resolved task, every call returns a non-error response and
appends exactly one report, stamped with the call's clock, at the end of
the reports list; the reports length grows by exactly one per call, the
original reports remain as an unchanged prefix, and updatedAt is refreshed
to the call's clock on every call — the updatedAt trace equals the clock
trace, so a non-decreasing clock makes updatedAt non-decreasing across the
whole sequence. -/
theorem submit_reports_append_only_monotone :
    ∀ (calls : List (Json × String × Nat)) (projects : List Project)
      (pname tid : String) (pidx tidx : Nat),
      (∀ c ∈ calls, c.1.getStr "project" "" = pname ∧ c.1.getStr "task_id" "" = tid) →
      find_project_index projects pname = some pidx →
      (projects.getD pidx defaultProject).tasks.findIdx? (fun t => t.id = tid) = some tidx →
      (∀ pre c post, calls = pre ++ c :: post →
        (tool_submit_task_report (submitSeq projects pre) c.1 c.2.1 c.2.2).response.get?
            "isError" = none ∧
        (∃ r, (taskAt (submitSeq projects (pre ++ [c])) pidx tidx).reports =
            (taskAt (submitSeq projects pre) pidx tidx).reports ++ [r] ∧
          r.createdAt = c.2.1) ∧
        (taskAt (submitSeq projects (pre ++ [c])) pidx tidx).updatedAt = c.2.1) ∧
      (taskAt (submitSeq projects calls) pidx tidx).reports.length =
        (taskAt projects pidx tidx).reports.length + calls.length ∧
      (taskAt (submitSeq projects calls) pidx tidx).reports.take
          (taskAt projects pidx tidx).reports.length = (taskAt projects pidx tidx).reports ∧
      ((List.range (calls.length + 1)).map (fun n =>
          (taskAt (submitSeq projects (calls.take n)) pidx tidx).updatedAt) =
        (taskAt projects pidx tidx).updatedAt :: calls.map (fun c => c.2.1)) ∧
      (List.Chain' (fun a b => strLe a b = true)
          ((taskAt projects pidx tidx).updatedAt :: calls.map (fun c => c.2.1)) →
        List.Chain' (fun a b => strLe a b = true)
          ((List.range (calls.length + 1)).map (fun n =>
            (taskAt (submitSeq projects (calls.take n)) pidx tidx).updatedAt))) := by
  intro calls projects pname tid pidx tidx hall hp ht
  obtain ⟨hlen, htake, htrace⟩ :=
    submitSeq_reports_spec calls projects pname tid pidx tidx hall hp ht
  refine ⟨?_, hlen, htake, htrace, ?_⟩
  · intro pre c post hdecomp
    have hallpre : ∀ d ∈ pre, d.1.getStr "project" "" = pname ∧ d.1.getStr "task_id" "" = tid :=
      fun d hd => hall d (by rw [hdecomp]; exact List.mem_append_left _ hd)
    have hc := hall c (by rw [hdecomp]; exact List.mem_append_right _ (List.mem_cons_self c post))
    obtain ⟨hres1, hres2⟩ := submitSeq_resolves pre projects pname tid pidx tidx hallpre hp ht
    obtain ⟨hok, projects2, hw, hrep2, hupd2, _, _⟩ :=
      submit_step_spec (submitSeq projects pre) c.1 c.2.1 c.2.2 pidx tidx
        (by rw [hc.1]; exact hres1) (by rw [hc.2]; exact hres2)
    have happ : submitSeq projects (pre ++ [c]) = projects2 := by
      rw [submitSeq_append pre [c] projects]
      show (tool_submit_task_report (submitSeq projects pre) c.1 c.2.1 c.2.2).written.getD _ = _
      rw [hw]
      rfl
    refine ⟨hok, ?_, ?_⟩
    · obtain ⟨r, hr, hrc, _⟩ := hrep2
      exact ⟨r, by rw [happ]; exact hr, hrc⟩
    · rw [happ]
      exact hupd2
  · intro hchain
    rwa [htrace]

theorem submit_reports_append_only_monotone_witness :
    (taskAt (submitSeq [demoProjectMixed] c3calls) 0 0).reports.length =
      (taskAt [demoProjectMixed] 0 0).reports.length + c3calls.length ∧
    ((List.range (c3calls.length + 1)).map (fun n =>
        (taskAt (submitSeq [demoProjectMixed] (c3calls.take n)) 0 0).updatedAt) =
      (taskAt [demoProjectMixed] 0 0).updatedAt :: c3calls.map (fun c => c.2.1)) := by
  have h := submit_reports_append_only_monotone c3calls [demoProjectMixed] "Demo" "A" 0 0
    (by decide) (by decide) (by decide)
  exact ⟨h.2.1, h.2.2.2.1⟩

theorem utf8Len_foldl_shift :
    ∀ (l : List Char) (a : Nat), l.foldl (fun n c => n + c.utf8Size) a = a + utf8Len l := by
  intro l
  induction l with
  | nil => intro a; simp [utf8Len]
  | cons x xs ih =>
    intro a
    unfold utf8Len
    simp only [List.foldl_cons]
    rw [ih (a + x.utf8Size), ih (0 + x.utf8Size)]
    omega

theorem utf8Len_cons (c : Char) (l : List Char) :
    utf8Len (c :: l) = c.utf8Size + utf8Len l := by
  show List.foldl (fun n c => n + c.utf8Size) 0 (c :: l) = c.utf8Size + utf8Len l
  simp only [List.foldl_cons]
  rw [utf8Len_foldl_shift l (0 + c.utf8Size)]
  omega

theorem utf8Len_append (l1 l2 : List Char) :
    utf8Len (l1 ++ l2) = utf8Len l1 + utf8Len l2 := by
  show List.foldl (fun n c => n + c.utf8Size) 0 (l1 ++ l2) = utf8Len l1 + utf8Len l2
  rw [List.foldl_append, utf8Len_foldl_shift l2]
  rfl

theorem utf8Len_all_one : ∀ (l : List Char), (∀ c ∈ l, c.utf8Size = 1) →
    utf8Len l = l.length := by
  intro l
  induction l with
  | nil => intro _; rfl
  | cons c cs ih =>
    intro h
    rw [utf8Len_cons, h c (List.mem_cons_self c cs),
      ih (fun d hd => h d (List.mem_cons_of_mem c hd))]
    simp [Nat.add_comm]

theorem length_le_utf8Len : ∀ (l : List Char), l.length ≤ utf8Len l := by
  intro l
  induction l with
  | nil => exact Nat.le_refl 0
  | cons c cs ih =>
    rw [utf8Len_cons]
    have := Char.utf8Size_pos c
    simp only [List.length_cons]
    omega

theorem utf8Size_eq_one_of_val_le (c : Char) (h : c.val ≤ 127) : c.utf8Size = 1 := by
  unfold Char.utf8Size
  dsimp only
  rw [if_pos]
  exact UInt32.le_trans h (by decide)

theorem hexLower_utf8Size (c : Char) (h : isLowerHexChar c = true) : c.utf8Size = 1 := by
  unfold isLowerHexChar at h
  rcases of_decide_eq_true h with ⟨_, h2⟩ | ⟨_, h2⟩ <;>
    exact utf8Size_eq_one_of_val_le c (UInt32.le_trans (Char.le_def.mp h2) (by decide))

theorem alnum_utf8Size (c : Char) (h : c.isAlphanum = true) : c.utf8Size = 1 := by
  simp only [Char.isAlphanum, Char.isAlpha, Char.isUpper, Char.isLower, Char.isDigit,
    Bool.or_eq_true, Bool.and_eq_true, decide_eq_true_eq] at h
  rcases h with (⟨_, h2⟩ | ⟨_, h2⟩) | ⟨_, h2⟩ <;>
    exact utf8Size_eq_one_of_val_le c (UInt32.le_trans h2 (by decide))

theorem dropWhile_head_false (p : α → Bool) :
    ∀ (l : List α) (c : α) (tl : List α), l.dropWhile p = c :: tl → p c = false := by
  intro l
  induction l with
  | nil => intro c tl h; cases h
  | cons a as ih =>
    intro c tl h
    by_cases hp : p a = true
    · rw [List.dropWhile_cons_of_pos hp] at h
      exact ih c tl h
    · rw [List.dropWhile_cons_of_neg (by simpa using hp)] at h
      cases h
      simpa using hp

theorem splitn2_eq_some (sep : Char) (s hash ext : String)
    (h : splitn2 sep s = (hash, some ext)) :
    s.toList = hash.toList ++ sep :: ext.toList ∧ ∀ c ∈ hash.toList, ¬ c = sep := by
  unfold splitn2 at h
  dsimp only at h
  rcases hd : s.toList.dropWhile (fun c => decide (¬ c = sep)) with _ | ⟨d, tl⟩
  · rw [hd] at h
    simp at h
  · rw [hd] at h
    simp only [Prod.mk.injEq, Option.some.injEq] at h
    obtain ⟨h1, h2⟩ := h
    have hdfalse := dropWhile_head_false _ _ _ _ hd
    have hdsep : d = sep := by simpa using hdfalse
    constructor
    · rw [← h1, ← h2]
      have hsplit := (List.takeWhile_append_dropWhile (p := fun c => decide (¬ c = sep))
        (l := s.toList)).symm
      rw [hd, hdsep] at hsplit
      exact hsplit
    · intro c hc
      rw [← h1] at hc
      have := List.mem_takeWhile_imp hc
      simpa using this

theorem splitn2_of_decomp (sep : Char) (s : String) (l1 l2 : List Char)
    (hl : s.toList = l1 ++ sep :: l2) (hno : ∀ c ∈ l1, ¬ c = sep) :
    splitn2 sep s = (⟨l1⟩, some ⟨l2⟩) := by
  unfold splitn2
  dsimp only
  rw [hl]
  rw [List.takeWhile_append_of_pos (by intro a ha; simpa using hno a ha),
      List.dropWhile_append_of_pos (by intro a ha; simpa using hno a ha),
      List.takeWhile_cons_of_neg (by simp), List.dropWhile_cons_of_neg (by simp)]
  simp

theorem hex_char_ne (c : Char) (h : isLowerHexChar c = true) :
    ¬ c = '.' ∧ ¬ c = '/' ∧ ¬ c = '\\' := by
  refine ⟨?_, ?_, ?_⟩ <;> rintro rfl <;> revert h <;> decide

theorem alnum_char_ne (c : Char) (h : c.isAlphanum = true) :
    ¬ c = '.' ∧ ¬ c = '/' ∧ ¬ c = '\\' := by
  refine ⟨?_, ?_, ?_⟩ <;> rintro rfl <;> revert h <;> decide

/-- C10: is_valid_asset_file_name accepts exactly the names whose trimmed
form is 64 lowercase hex characters, one dot, and a 1-to-8-character ASCII
alphanumeric extension (hence no path separators), and
read_asset_base64_image rejects every other name independently of the
filesystem and otherwise consults the filesystem only at the direct join
of the assets directory with the trimmed name. -/
theorem asset_names_hex_dot_ext_and_read_confined :
    (∀ s, is_valid_asset_file_name s = true ↔ validAssetNameShape (rustTrim s)) ∧
    (∀ s, is_valid_asset_file_name s = true →
      rustContainsChar (rustTrim s) '/' = false ∧
      rustContainsChar (rustTrim s) '\\' = false) ∧
    (∀ (env : AssetEnv) (name : String),
      is_valid_asset_file_name (rustTrim name) = false →
      read_asset_base64_image env name =
        .error "无效的 asset 文件名（必须为 64 位小写 hex + 扩展名）。") ∧
    (∀ (env env2 : AssetEnv) (name : String),
      env.assetDir = env2.assetDir →
      env.b64encode = env2.b64encode →
      (∀ d, env.assetDir = .ok d →
        env.fileExists (joinPath d (rustTrim name)) =
          env2.fileExists (joinPath d (rustTrim name)) ∧
        env.readFile (joinPath d (rustTrim name)) =
          env2.readFile (joinPath d (rustTrim name))) →
      read_asset_base64_image env name = read_asset_base64_image env2 name) := by
  have hvalid : ∀ s, is_valid_asset_file_name s = true ↔ validAssetNameShape (rustTrim s) := by
    intro s
    constructor
    · intro h
      unfold is_valid_asset_file_name at h
      dsimp only at h
      by_cases hb : utf8Len (rustTrim s).toList < 66 ∨ utf8Len (rustTrim s).toList > 73
      · rw [if_pos hb] at h
        cases h
      rw [if_neg hb] at h
      by_cases hc : rustContainsChar (rustTrim s) '/' = true ∨
          rustContainsChar (rustTrim s) '\\' = true
      · rw [if_pos hc] at h
        cases h
      rw [if_neg hc] at h
      rcases hsp : splitn2 '.' (rustTrim s) with ⟨hash, oext⟩
      rw [hsp] at h
      rcases oext with _ | ext
      · simp at h
      dsimp only at h
      by_cases h1 : ¬ utf8Len hash.toList = 64 ∨ ext = "" ∨ utf8Len ext.toList > 8
      · rw [if_pos h1] at h
        cases h
      rw [if_neg h1] at h
      by_cases h2 : ¬ hash.toList.all isLowerHexChar = true
      · rw [if_pos h2] at h
        cases h
      rw [if_neg h2] at h
      by_cases h3 : ¬ ext.toList.all (fun c => c.isAlphanum) = true
      · rw [if_pos h3] at h
        cases h
      push_neg at h1
      obtain ⟨hb64, hbne, hble⟩ := h1
      rw [not_not] at h2 h3
      have hhex := List.all_eq_true.mp h2
      have halnum := List.all_eq_true.mp h3
      obtain ⟨hsplit, _⟩ := splitn2_eq_some '.' (rustTrim s) hash ext hsp
      refine ⟨hash.toList, ext.toList, hsplit, ?_, hhex, ?_, ?_, halnum⟩
      · rw [← utf8Len_all_one hash.toList (fun c hc => hexLower_utf8Size c (hhex c hc))]
        exact hb64
      · obtain ⟨extData⟩ := ext
        match extData, hbne with
        | [], hbne => exact absurd rfl hbne
        | c :: tl, _ => simp [String.toList]
      · exact le_trans (length_le_utf8Len ext.toList) hble
    · rintro ⟨hashL, extL, hsplit, hlen, hhex, hext1, hext8, halnum⟩
      unfold is_valid_asset_file_name
      dsimp only
      have hulen : utf8Len (rustTrim s).toList = 65 + extL.length := by
        rw [hsplit, utf8Len_append, utf8Len_cons,
          utf8Len_all_one hashL (fun c hc => hexLower_utf8Size c (hhex c hc)),
          utf8Len_all_one extL (fun c hc => alnum_utf8Size c (halnum c hc)), hlen]
        have hdot : ('.').utf8Size = 1 := by decide
        omega
      have hnosep : ∀ c ∈ (rustTrim s).toList, ¬ c = '/' ∧ ¬ c = '\\' := by
        intro c hc
        rw [hsplit] at hc
        rcases List.mem_append.mp hc with hc1 | hc2
        · exact ⟨(hex_char_ne c (hhex c hc1)).2.1, (hex_char_ne c (hhex c hc1)).2.2⟩
        · rcases List.mem_cons.mp hc2 with rfl | hc3
          · exact ⟨by decide, by decide⟩
          · exact ⟨(alnum_char_ne c (halnum c hc3)).2.1, (alnum_char_ne c (halnum c hc3)).2.2⟩
      have hcontf : ∀ (a : Char), (∀ c ∈ (rustTrim s).toList, ¬ c = a) →
          rustContainsChar (rustTrim s) a = false := by
        intro a hall
        unfold rustContainsChar
        rw [Bool.eq_false_iff]
        intro hcon
        obtain ⟨x, hx, hbeq⟩ := List.contains_iff_exists_mem_beq.mp hcon
        have hxa : a = x := by simpa using hbeq
        exact hall x hx hxa.symm
      have hA := hcontf '/' (fun c hc => (hnosep c hc).1)
      have hB := hcontf '\\' (fun c hc => (hnosep c hc).2)
      rw [if_neg (by rw [hulen]; omega)]
      rw [if_neg (by simp [hA, hB])]
      rw [splitn2_of_decomp '.' (rustTrim s) hashL extL hsplit
        (fun c hc => (hex_char_ne c (hhex c hc)).1)]
      dsimp only
      rw [if_neg ?hcond1]
      case hcond1 =>
        push_neg
        refine ⟨?_, ?_, ?_⟩
        · show utf8Len hashL = 64
          rw [utf8Len_all_one hashL (fun c hc => hexLower_utf8Size c (hhex c hc))]
          exact hlen
        · show ¬ String.mk extL = ""
          intro hmk
          have hnil : extL = [] := congrArg String.data hmk
          rw [hnil] at hext1
          cases hext1
        · show utf8Len extL ≤ 8
          rw [utf8Len_all_one extL (fun c hc => alnum_utf8Size c (halnum c hc))]
          exact hext8
      simp only [String.toList]
      rw [if_neg (not_not_intro (List.all_eq_true.mpr hhex)),
        if_neg (not_not_intro (List.all_eq_true.mpr halnum))]
  refine ⟨hvalid, ?_, ?_, ?_⟩
  · intro s h
    unfold is_valid_asset_file_name at h
    dsimp only at h
    by_cases hb : utf8Len (rustTrim s).toList < 66 ∨ utf8Len (rustTrim s).toList > 73
    · rw [if_pos hb] at h
      cases h
    rw [if_neg hb] at h
    by_cases hc : rustContainsChar (rustTrim s) '/' = true ∨
        rustContainsChar (rustTrim s) '\\' = true
    · rw [if_pos hc] at h
      cases h
    constructor
    · rw [Bool.eq_false_iff]
      exact fun hh => hc (Or.inl hh)
    · rw [Bool.eq_false_iff]
      exact fun hh => hc (Or.inr hh)
  · intro env name hinvalid
    unfold read_asset_base64_image
    dsimp only
    rw [if_pos (by rw [hinvalid]; exact Bool.false_ne_true)]
  · intro env env2 name hdir hb64 hfs
    unfold read_asset_base64_image
    dsimp only
    by_cases hval : is_valid_asset_file_name (rustTrim name) = true
    · rw [if_neg (not_not_intro hval), if_neg (not_not_intro hval)]
      rcases hd : env.assetDir with e | d
      · rw [← hdir, hd]
      · rw [← hdir, hd]
        dsimp only
        obtain ⟨hex, hrd⟩ := hfs d hd
        rw [hex]
        by_cases hexists : env2.fileExists (joinPath d (rustTrim name)) = true
        · rw [if_neg (not_not_intro hexists), if_neg (not_not_intro hexists), hrd, hb64]
        · rw [if_pos hexists, if_pos hexists]
    · rw [if_pos hval, if_pos hval]

theorem asset_names_hex_dot_ext_and_read_confined_witness :
    read_asset_base64_image demoAssetEnv "not-a-valid-name" =
      .error "无效的 asset 文件名（必须为 64 位小写 hex + 扩展名）。" ∧
    validAssetNameShape (rustTrim
      "0123456789abcdef0123456789abcdef0123456789abcdef0123456789abcdef.png") :=
  ⟨asset_names_hex_dot_ext_and_read_confined.2.2.1 demoAssetEnv "not-a-valid-name" (by decide),
   (asset_names_hex_dot_ext_and_read_confined.1
      "0123456789abcdef0123456789abcdef0123456789abcdef0123456789abcdef.png").mp (by decide)⟩

end Maple
